import Mathlib

/-!
Verification development for the WocabeeHelper repository.

Shallow embedding of the core engine:
* `utils/state.js`  — the word-association store (`WocabeeState`)
* `utils/dom.js`    — text filtering (`isUIText`), question scoring
  (`findCurrentQuestion`, strategy 2), exercise classification
  (`detectExerciseType`, `findAnswerOptions`, `extractWordPairs`)
* `content/observer.js` — the feedback/learning state machine
  (`checkForFeedbackAndLearn`, `learnFromCorrectAnswer`,
  `learnFromIncorrectAnswer`, `findCorrectAnswer`, `findRevealedAnswer`)

JavaScript strings are modelled as `List Char` (`JStr`).  Browser-side
DOM queries (`querySelector` / `querySelectorAll` / `getBoundingClientRect`
/ `getComputedStyle`), which the spec lists as the external tree-query
collaborator, are modelled as oracle fields of explicit page structures;
every repository-side computation on the query results is embedded
faithfully from the source.
-/

set_option maxRecDepth 10000

/-- JavaScript string, modelled as a list of characters. -/
abbrev JStr := List Char

/-- Coercion helper turning a Lean string literal into a `JStr`. -/
def jstr (s : String) : JStr := s.toList

/-- ASCII whitespace characters recognised by the JS `\s` class and
`String.prototype.trim` (the Unicode space characters beyond ASCII are
outside the repertoire this code base ever produces). -/
def wsChars : List Char := [' ', '\t', '\n', '\x0b', '\x0c', '\r']

/-- Whitespace test used by `trim`, `\s` and `replace(/\s+/g, ' ')`. -/
def isJsWs (c : Char) : Bool := wsChars.contains c

/-- Upper/lower pairs for `String.prototype.toLowerCase`, restricted to the
character repertoire distinguished by this code base (ASCII letters plus the
Czech and German letters appearing in its regexes and word lists). -/
def lowerPairs : List (Char × Char) :=
  [('A','a'), ('B','b'), ('C','c'), ('D','d'), ('E','e'), ('F','f'), ('G','g'),
   ('H','h'), ('I','i'), ('J','j'), ('K','k'), ('L','l'), ('M','m'), ('N','n'),
   ('O','o'), ('P','p'), ('Q','q'), ('R','r'), ('S','s'), ('T','t'), ('U','u'),
   ('V','v'), ('W','w'), ('X','x'), ('Y','y'), ('Z','z'),
   ('Á','á'), ('Č','č'), ('Ď','ď'), ('É','é'), ('Ě','ě'), ('Í','í'), ('Ň','ň'),
   ('Ó','ó'), ('Ř','ř'), ('Š','š'), ('Ť','ť'), ('Ú','ú'), ('Ů','ů'), ('Ý','ý'),
   ('Ž','ž'), ('Ä','ä'), ('Ö','ö'), ('Ü','ü')]

/-- Model of JS `toLowerCase` on a single character. -/
def jsToLower (c : Char) : Char :=
  match lowerPairs.find? (fun p => p.1 == c) with
  | some p => p.2
  | none => c

/-- Model of `String.prototype.toLowerCase`. -/
def lowerStr (s : JStr) : JStr := s.map jsToLower

/-- Model of `String.prototype.trim`. -/
def jsTrim (s : JStr) : JStr :=
  ((s.dropWhile isJsWs).reverse.dropWhile isJsWs).reverse

/-- Worker for `replace(/\s+/g, ' ')`: the flag records whether the previous
character belonged to a whitespace run that has already emitted its single
space. -/
def collapseGo : Bool → JStr → JStr
  | _, [] => []
  | afterWs, c :: rest =>
    if isJsWs c then
      if afterWs then collapseGo true rest else ' ' :: collapseGo true rest
    else c :: collapseGo false rest

/-- Model of `replace(/\s+/g, ' ')`: every whitespace run becomes one space. -/
def collapseWs (s : JStr) : JStr := collapseGo false s

/-- `WocabeeState.normalizeWord` (state.js:248-251):
`word.trim().toLowerCase().replace(/\s+/g, ' ')`.  The JS guard for
non-string arguments is rendered by the `JStr` signature. -/
def normalizeWord (w : JStr) : JStr := collapseWs (lowerStr (jsTrim w))

/-- Letters beyond ASCII accepted by the letter regex
`[a-zA-ZáčďéěíňóřšťúůýžÁČĎÉĚÍŇÓŘŠŤÚŮÝŽäöüßÄÖÜ]` of state.js:146 /
dom.js:260. -/
def letterExtras : List Char :=
  ['á','č','ď','é','ě','í','ň','ó','ř','š','ť','ú','ů','ý','ž',
   'Á','Č','Ď','É','Ě','Í','Ň','Ó','Ř','Š','Ť','Ú','Ů','Ý','Ž',
   'ä','ö','ü','ß','Ä','Ö','Ü']

/-- Membership in the diacritics-inclusive letter class of the source. -/
def isLetterJs (c : Char) : Bool :=
  ('a' ≤ c && c ≤ 'z') || ('A' ≤ c && c ≤ 'Z') || letterExtras.contains c

/-- ASCII digit test, the `\d` class. -/
def isDigitC (c : Char) : Bool := '0' ≤ c && c ≤ '9'

/-- Test for `/^\d+$/`: non-empty and all digits. -/
def isAllDigits (s : JStr) : Bool := !s.isEmpty && s.all isDigitC

/-- Does `pre` occur at the start of `hay` (character-exact)? -/
def startsWithL : JStr → JStr → Bool
  | [], _ => true
  | _ :: _, [] => false
  | a :: as, b :: bs => a == b && startsWithL as bs

/-- Model of `String.prototype.includes`: substring containment. -/
def hasSub (hay needle : JStr) : Bool :=
  match hay with
  | [] => needle.isEmpty
  | _ :: rest => startsWithL needle hay || hasSub rest needle

/-- Rejected UI phrases of `isUIText` (dom.js:268-283), in source order. -/
def uiPatterns : List JStr :=
  [jstr "next", jstr "continue", jstr "skip", jstr "submit", jstr "check",
   jstr "ok", jstr "cancel",
   jstr "correct", jstr "wrong", jstr "right", jstr "error", jstr "success",
   jstr "loading", jstr "please wait", jstr "score", jstr "points",
   jstr "progress",
   jstr "login", jstr "logout", jstr "sign", jstr "register", jstr "password",
   jstr "menu", jstr "home", jstr "back", jstr "settings", jstr "help",
   jstr "wocabee", jstr "copyright", jstr "©", jstr "cookie", jstr "privacy",
   jstr "click", jstr "tap", jstr "press", jstr "select", jstr "choose",
   jstr "learning mode", jstr "wocabeehelper", jstr "indexed",
   jstr "words known",
   jstr "hint", jstr "answer", jstr "translation",
   jstr "seznam", jstr "balíků", jstr "balík", jstr "nastavení",
   jstr "odhlásit",
   jstr "přihlásit", jstr "pokračovat", jstr "zpět", jstr "další",
   jstr "hotovo",
   jstr "správně", jstr "špatně", jstr "chyba", jstr "body", jstr "skóre"]

/-- `WocabeeDom.isUIText` (dom.js:250-290).  True when the text is pure
digits, a 10+-digit numeral, has fewer than 2 letters, has more digits than
letters, or exactly matches / contains a rejected UI phrase. -/
def isUIText (text : JStr) : Bool :=
  if text.isEmpty then true
  else
    let lowerText := jsTrim (lowerStr text)
    if isAllDigits (jsTrim text) then true
    else if (jsTrim text).length ≥ 10 && isAllDigits (jsTrim text) then true
    else
      let letterCount := (text.filter isLetterJs).length
      if letterCount < 2 then true
      else
        let digitCount := (text.filter isDigitC).length
        if digitCount > letterCount then true
        else if uiPatterns.contains lowerText then true
        else uiPatterns.any (fun p => hasSub lowerText p)

example : isUIText (jstr "123456") = true := by decide
example : isUIText (jstr "ok") = true := by decide
example : isUIText (jstr "Haus") = false := by decide
example : isUIText (jstr "dům") = false := by decide
example : normalizeWord (jstr "  Hello   World ") = jstr "hello world" := by decide

/-! ## Insertion-ordered maps

JS `Map` preserves insertion order: `set` on a present key updates the value
in place, `set` on an absent key appends.  We model a `Map` whose values are
`α` as an association list. -/

/-- Model of `Map.prototype.has`. -/
def mapHas (m : List (JStr × α)) (k : JStr) : Bool :=
  m.any (fun p => p.1 == k)

/-- Model of `Map.prototype.get` (returning `none` for `undefined`). -/
def mapGet? (m : List (JStr × α)) (k : JStr) : Option α :=
  (m.find? (fun p => p.1 == k)).map (fun p => p.2)

/-- Model of `Map.prototype.set`: update in place when the key is present,
append otherwise. -/
def mapSet (m : List (JStr × α)) (k : JStr) (v : α) : List (JStr × α) :=
  if mapHas m k then m.map (fun p => if p.1 == k then (k, v) else p)
  else m ++ [(k, v)]

/-- Worker for `dedupKeepFirst`, carrying the set of strings already
emitted. -/
def dedupGo (seen : List JStr) : List JStr → List JStr
  | [] => []
  | x :: rest =>
    if seen.contains x then dedupGo seen rest
    else x :: dedupGo (x :: seen) rest

/-- Keep-first deduplication, the effect of `[...new Set(xs)]` on an array of
strings. -/
def dedupKeepFirst (xs : List JStr) : List JStr := dedupGo [] xs

/-! ## WordStore (`WocabeeState`, state.js) -/

/-- Mutable state of `WocabeeState` relevant to the store: the primary
mapping, the reverse index and the two counters (state.js:13-23). -/
structure WordState where
  wordDatabase : List (JStr × List JStr)
  reverseDatabase : List (JStr × List JStr)
  wordsIndexed : Nat
  answersHelped : Nat
deriving DecidableEq, Repr

/-- Store at process start: both maps empty, counters zero. -/
def emptyState : WordState :=
  { wordDatabase := [], reverseDatabase := [], wordsIndexed := 0,
    answersHelped := 0 }

/-- UI words rejected by `addWord` (state.js:152). -/
def uiWords : List JStr :=
  [jstr "learning mode", jstr "wocabee", jstr "seznam", jstr "balíků",
   jstr "settings", jstr "menu", jstr "next", jstr "back", jstr "indexed",
   jstr "words known"]

/-- `WocabeeState.addWord` (state.js:127-181).  Returns the JS return value
together with the successor state.  The `typeof` guards are rendered by the
`JStr` signature; `!source || !target` is the emptiness test on JS strings.
The persistence call `saveToStorage` is fire-and-forget and does not touch
the in-memory state, so it has no footprint here. -/
def addWord (source target : JStr) (st : WordState) : Bool × WordState :=
  if source.isEmpty || target.isEmpty then (false, st)
  else
    let s := normalizeWord source
    let t := normalizeWord target
    if s.isEmpty || t.isEmpty then (false, st)
    else if s == t then (false, st)
    else if isAllDigits s || isAllDigits t then (false, st)
    else if (s.takeWhile isDigitC).length ≥ 10 ||
            (t.takeWhile isDigitC).length ≥ 10 then (false, st)
    else if (s.filter isLetterJs).length < 2 ||
            (t.filter isLetterJs).length < 2 then (false, st)
    else if uiWords.any (fun w =>
              hasSub (lowerStr s) w || hasSub (lowerStr t) w) then (false, st)
    else
      let st1 :=
        if mapHas st.wordDatabase s then st
        else { st with wordDatabase := mapSet st.wordDatabase s [] }
      let translations := (mapGet? st1.wordDatabase s).getD []
      if translations.contains t then (false, st1)
      else
        let st2 := { st1 with
          wordDatabase := mapSet st1.wordDatabase s (translations ++ [t]),
          wordsIndexed := st1.wordsIndexed + 1 }
        let st3 :=
          if mapHas st2.reverseDatabase t then st2
          else { st2 with reverseDatabase := mapSet st2.reverseDatabase t [] }
        let sources := (mapGet? st3.reverseDatabase t).getD []
        if sources.contains s then (true, st3)
        else (true, { st3 with
          reverseDatabase := mapSet st3.reverseDatabase t (sources ++ [s]) })

/-- `WocabeeState.addWords` (state.js:186-197): apply `addWord` to every
pair in order, counting the successes. -/
def addWords (wordPairs : List (JStr × JStr)) (st : WordState) :
    Nat × WordState :=
  wordPairs.foldl
    (fun acc p =>
      let r := addWord p.1 p.2 acc.2
      (if r.1 then acc.1 + 1 else acc.1, r.2))
    (0, st)

/-- `WocabeeState.findPartialMatch` (state.js:222-243): bidirectional
case-insensitive substring scan over both maps, deduplicated union, `none`
when nothing matched. -/
def findPartialMatch (word : JStr) (st : WordState) : Option (List JStr) :=
  let lowerWord := lowerStr word
  let fromMain := st.wordDatabase.foldl
    (fun acc p =>
      if hasSub (lowerStr p.1) lowerWord || hasSub lowerWord (lowerStr p.1)
      then acc ++ p.2 else acc) []
  let allMatches := st.reverseDatabase.foldl
    (fun acc p =>
      if hasSub (lowerStr p.1) lowerWord || hasSub lowerWord (lowerStr p.1)
      then acc ++ p.2 else acc) fromMain
  if allMatches.length > 0 then some (dedupKeepFirst allMatches) else none

/-- `WocabeeState.findTranslation` (state.js:202-217): direct lookup, then
reverse lookup, then partial match. -/
def findTranslation (word : JStr) (st : WordState) : Option (List JStr) :=
  let w := normalizeWord word
  if mapHas st.wordDatabase w then mapGet? st.wordDatabase w
  else if mapHas st.reverseDatabase w then mapGet? st.reverseDatabase w
  else findPartialMatch w st

/-- Key count of the store, the `totalWords` field of
`WocabeeState.getStats` (state.js:258). -/
def totalWords (st : WordState) : Nat := st.wordDatabase.length

/-- Summed translation count, the `totalTranslations` field of
`WocabeeState.getStats` (state.js:259). -/
def totalTranslations (st : WordState) : Nat :=
  st.wordDatabase.foldl (fun sum p => sum + p.2.length) 0

/-- `WocabeeState.clearDatabase` (state.js:269-276): empties both maps and
resets the counters. -/
def clearDatabase (_st : WordState) : WordState := emptyState

/-! ## Export / import (state.js:281-304)

`exportDatabase` serialises `Object.fromEntries(wordDatabase)` with
`JSON.stringify`, and `importDatabase` starts with `JSON.parse`.  We model
the serialised document at the JSON-value level: `JSON.stringify` followed
by `JSON.parse` is the identity on string-keyed objects of string arrays, so
the composition `importDatabase (Except.ok (exportDatabase st))` is the
value-level rendering of `importDatabase(exportDatabase())`.  A top-level
parse failure is the `Except.error` case. -/

/-- JSON values as produced by `JSON.parse`. -/
inductive JVal where
  | null
  | bool (b : Bool)
  | num (n : Int)
  | str (s : JStr)
  | arr (xs : List JVal)
  | obj (fields : List (JStr × JVal))

/-- Decimal rendering of an index, for `Object.entries` on arrays and
strings. -/
def natKey (n : Nat) : JStr := (toString n).toList

/-- Model of `Object.entries`.  `Object.entries(null)` throws (`none`, the
exception is caught by `importDatabase`'s `try`); strings and arrays
enumerate index/value pairs; other primitives give no entries. -/
def jsEntries : JVal → Option (List (JStr × JVal))
  | .null => none
  | .obj fields => some fields
  | .str s => some (s.enum.map (fun p => (natKey p.1, JVal.str [p.2])))
  | .arr xs => some (xs.enum.map (fun p => (natKey p.1, p.2)))
  | .bool _ => some []
  | .num _ => some []

/-- The call `this.addWord(source, target)` made by `importDatabase` with a
parsed JSON value as target: non-string targets fail the falsy/`typeof`
guards of `addWord` and leave the state unchanged. -/
def addWordVal (source : JStr) (v : JVal) (st : WordState) :
    Bool × WordState :=
  match v with
  | .str t => addWord source t st
  | _ => (false, st)

/-- `WocabeeState.exportDatabase` (state.js:281-283) at the JSON-value
level: the primary mapping as an object of arrays of strings. -/
def exportDatabase (st : WordState) : JVal :=
  .obj (st.wordDatabase.map (fun p => (p.1, JVal.arr (p.2.map JVal.str))))

/-- `WocabeeState.importDatabase` (state.js:288-304).  The argument is the
result of `JSON.parse` on the input string (`Except.error` when the
top-level parse throws); the surrounding `try`/`catch` turns any throw into
the return value `0` with the state untouched. -/
def importDatabase (parsed : Except Unit JVal) (st : WordState) :
    Nat × WordState :=
  match parsed with
  | .error _ => (0, st)
  | .ok data =>
    match jsEntries data with
    | none => (0, st)
    | some entries =>
      entries.foldl
        (fun acc e =>
          let targetArray := match e.2 with
            | .arr xs => xs
            | v => [v]
          targetArray.foldl
            (fun acc2 t =>
              let r := addWordVal e.1 t acc2.2
              (if r.1 then acc2.1 + 1 else acc2.1, r.2))
            acc)
        (0, st)

example : (addWord (jstr "Katze") (jstr "cat") emptyState).1 = true := by decide
example :
    (addWord (jstr "Katze") (jstr "cat") emptyState).2.wordDatabase =
      [(jstr "katze", [jstr "cat"])] := by decide
example :
    (addWord (jstr "Katze") (jstr "cat") emptyState).2.reverseDatabase =
      [(jstr "cat", [jstr "katze"])] := by decide
example : (addWord (jstr "next") (jstr "cat") emptyState).1 = false := by decide
example :
    findTranslation (jstr "Katz")
      (addWord (jstr "Katze") (jstr "cat") emptyState).2 =
      some [jstr "cat"] := by decide

/-! ## Regex machinery for `findRevealedAnswer` (observer.js:286-292)

The five phrase patterns are concrete regexes with literals, `\s*`, two
optional groups, one two-way alternation, `[:\s]+` and a final greedy
capture `(.+)`.  We embed them with backtracking continuation-passing
matchers: every choice point tries its alternatives in the engine's order
(greedy / left alternative first) and falls back on failure, which is
exactly the ECMAScript backtracking semantics for these constructs. -/

/-- Continuation of a partial regex match: receives the rest of the input,
returns the final capture on success. -/
abbrev MatchK := JStr → Option JStr

/-- Case-insensitive literal (the pattern word is given lowercase). -/
def litCI (w : JStr) (s : JStr) (k : MatchK) : Option JStr :=
  if lowerStr (s.take w.length) == w then k (s.drop w.length) else none

/-- Greedy `cls*`: consume as many class characters as possible, giving
them back one at a time on failure of the continuation. -/
def starCls (p : Char → Bool) : JStr → MatchK → Option JStr
  | [], k => k []
  | c :: rest, k =>
    if p c then (starCls p rest k).orElse (fun _ => k (c :: rest))
    else k (c :: rest)

/-- Greedy `cls+`: one mandatory class character, then `cls*`. -/
def plusCls (p : Char → Bool) (s : JStr) (k : MatchK) : Option JStr :=
  match s with
  | [] => none
  | c :: rest => if p c then starCls p rest k else none

/-- Greedy `(?:…)?`: try with the group first, then without. -/
def optPart (m : JStr → MatchK → Option JStr) (s : JStr) (k : MatchK) :
    Option JStr :=
  (m s k).orElse (fun _ => k s)

/-- Line terminators not matched by `.` in an ECMAScript regex. -/
def isLineTerm (c : Char) : Bool :=
  c == '\n' || c == '\r' || c.toNat == 0x2028 || c.toNat == 0x2029

/-- Final greedy capture `(.+)` with nothing after it: the maximal non-empty
run of non-terminator characters. -/
def dotPlusCap (s : JStr) : Option JStr :=
  let cap := s.takeWhile (fun c => !isLineTerm c)
  if cap.isEmpty then none else some cap

/-- Character class `[:\s]`. -/
def isColonWs (c : Char) : Bool := c == ':' || isJsWs c

/-- The optional group `(?:\s*is)`. -/
def isGroupPart (s : JStr) (k : MatchK) : Option JStr :=
  starCls isJsWs s (fun s2 => litCI (jstr "is") s2 k)

/-- Body shared by the first two patterns
`/X\s*(?:answer)?(?:\s*is)?[:\s]+(.+)/i` with `X` = `correct` / `right`. -/
def correctLikeAt (word : JStr) (s : JStr) : Option JStr :=
  litCI word s (fun s1 =>
    starCls isJsWs s1 (fun s2 =>
      optPart (litCI (jstr "answer")) s2 (fun s3 =>
        optPart isGroupPart s3 (fun s4 =>
          plusCls isColonWs s4 dotPlusCap))))

/-- Pattern `/correct\s*(?:answer)?(?:\s*is)?[:\s]+(.+)/i` at a position. -/
def pat1At (s : JStr) : Option JStr := correctLikeAt (jstr "correct") s

/-- Pattern `/right\s*(?:answer)?(?:\s*is)?[:\s]+(.+)/i` at a position. -/
def pat2At (s : JStr) : Option JStr := correctLikeAt (jstr "right") s

/-- Pattern `/should\s*(?:be|have been)[:\s]+(.+)/i` at a position. -/
def pat3At (s : JStr) : Option JStr :=
  litCI (jstr "should") s (fun s1 =>
    starCls isJsWs s1 (fun s2 =>
      (litCI (jstr "be") s2 (fun s3 =>
          plusCls isColonWs s3 dotPlusCap)).orElse (fun _ =>
        litCI (jstr "have been") s2 (fun s3 =>
          plusCls isColonWs s3 dotPlusCap))))

/-- Pattern `/answer[:\s]+(.+)/i` at a position. -/
def pat4At (s : JStr) : Option JStr :=
  litCI (jstr "answer") s (fun s1 => plusCls isColonWs s1 dotPlusCap)

/-- Pattern `/solution[:\s]+(.+)/i` at a position. -/
def pat5At (s : JStr) : Option JStr :=
  litCI (jstr "solution") s (fun s1 => plusCls isColonWs s1 dotPlusCap)

/-- Leftmost match: try the pattern at every start position in order. -/
def searchPat (patAt : JStr → Option JStr) : JStr → Option JStr
  | [] => patAt []
  | s@(_ :: rest) => (patAt s).orElse (fun _ => searchPat patAt rest)

/-- The ordered pattern list of observer.js:286-292. -/
def revealPats : List (JStr → Option JStr) :=
  [pat1At, pat2At, pat3At, pat4At, pat5At]

/-- The pattern loop of `findRevealedAnswer` method 3: the first pattern
that matches anywhere returns its trimmed capture. -/
def tryRevealPats (text : JStr) : Option JStr :=
  revealPats.foldl
    (fun acc patAt => acc.orElse (fun _ => (searchPat patAt text).map jsTrim))
    none

example :
    tryRevealPats (jstr "The correct answer is: Katze") =
      some (jstr "Katze") := by decide
example : tryRevealPats (jstr "Wrong again") = none := by decide

/-! ## Answer extraction and the feedback tracker (observer.js) -/

/-- The affirmative phrases stripped from success feedback by
`findCorrectAnswer` method 4 (observer.js:252), in the alternation order of
`/(correct|right|good|great|excellent|super|âœ“|âœ”|!)/gi` (the last two
entries are the mojibake check-mark sequences present verbatim in the
source file). -/
def feedbackPats : List JStr :=
  [jstr "correct", jstr "right", jstr "good", jstr "great", jstr "excellent",
   jstr "super", jstr "âœ“", jstr "âœ”", jstr "!"]

/-- Worker for `stripFeedback`; the fuel argument starts at the input length
and dominates the number of characters consumed, so it never runs out on
reachable inputs. -/
def stripFeedbackGo : Nat → JStr → JStr
  | 0, s => s
  | _ + 1, [] => []
  | n + 1, c :: rest =>
    match feedbackPats.find?
        (fun p => lowerStr ((c :: rest).take p.length) == p) with
    | some p => stripFeedbackGo n ((c :: rest).drop p.length)
    | none => c :: stripFeedbackGo n rest

/-- Global case-insensitive removal of the feedback phrases, the
`text.replace(/(correct|right|good|great|excellent|super|âœ“|âœ”|!)/gi, '')`
of observer.js:252. -/
def stripFeedback (s : JStr) : JStr := stripFeedbackGo s.length s

example : stripFeedback (jstr "Correct! cat") = jstr " cat" := by decide

/-- Snapshot of the document as seen through the external selector-engine
collaborator during one pass of the tracker.  Each field is the result of
one fixed read-only DOM query made by observer.js; `none` means the query
found no node, `some t` means it found one whose relevant text/value is
`t`.  All computation performed *on* these results is embedded from the
source. -/
structure Page where
  /-- Result of `WocabeeDom.findCurrentQuestion()` (observer.js:139). -/
  currentQuestion : Option JStr
  /-- The `value` property of `WocabeeDom.findAnswerInput()`
  (observer.js:221); `none` when no input node exists. -/
  answerInputValue : Option JStr
  /-- Text of `find('.wh-correct, .selected.correct, …')`
  (observer.js:229). -/
  highlightedCorrectText : Option JStr
  /-- Text of `find('.active, .selected, [aria-selected="true"], .clicked')`
  (observer.js:237). -/
  activeText : Option JStr
  /-- Text of `find(selectors.correctFeedback)`; `isSome` is the
  correct-feedback signal of observer.js:154. -/
  correctFeedbackText : Option JStr
  /-- Text of `find(selectors.incorrectFeedback)`; `isSome` is the
  incorrect-feedback signal of observer.js:160. -/
  incorrectFeedbackText : Option JStr
  /-- Text of `find(selectors.revealedAnswer)` (observer.js:269). -/
  revealedText : Option JStr
  /-- Text of `find('.correct:not(.selected), …')` (observer.js:275). -/
  correctNotSelectedText : Option JStr
  /-- Text of the first answer option flagged correct by class or data
  attribute (observer.js:303-311); `none` when the loop finds none. -/
  flaggedOptionText : Option JStr
deriving DecidableEq, Repr

/-- Method 4 of `findCorrectAnswer` (observer.js:247-257): strip the
affirmative phrases from the success-feedback text; accept 1-99 remaining
characters. -/
def correctFromFeedback (page : Page) : Option JStr :=
  match page.correctFeedbackText with
  | some txt =>
    let filtered := jsTrim (stripFeedback txt)
    if !filtered.isEmpty && filtered.length < 100 then some filtered else none
  | none => none

/-- Method 3 of `findCorrectAnswer` (observer.js:237-244), falling through
to method 4 when the active element's text is empty or UI text. -/
def correctFromActive (page : Page) : Option JStr :=
  match page.activeText with
  | some t =>
    if !t.isEmpty && !isUIText (lowerStr t) then some t
    else correctFromFeedback page
  | none => correctFromFeedback page

/-- Method 2 of `findCorrectAnswer` (observer.js:229-234): a present
highlighted-correct node returns its text unconditionally (even when that
text is empty). -/
def correctFromHighlighted (page : Page) : Option JStr :=
  match page.highlightedCorrectText with
  | some t => some t
  | none => correctFromActive page

/-- `WocabeeObserver.findCorrectAnswer` (observer.js:217-260): input value
first, then highlighted option, then active element, then filtered success
feedback. -/
def findCorrectAnswer (page : Page) : Option JStr :=
  match page.answerInputValue with
  | some v =>
    if !v.isEmpty && !(jsTrim v).isEmpty then some (jsTrim v)
    else correctFromHighlighted page
  | none => correctFromHighlighted page

/-- `WocabeeObserver.findRevealedAnswer` (observer.js:265-314): explicit
reveal node, then correct-but-unselected node, then phrase parsing of the
error feedback, then the option flagged correct. -/
def findRevealedAnswer (page : Page) : Option JStr :=
  match page.revealedText with
  | some t => some t
  | none =>
    match page.correctNotSelectedText with
    | some t => some t
    | none =>
      match page.incorrectFeedbackText with
      | some txt =>
        match tryRevealPats txt with
        | some cap => some cap
        | none => page.flaggedOptionText
      | none => page.flaggedOptionText

/-- Learning-relevant mutable fields of `WocabeeObserver`
(observer.js:10-11): the tracked question and the waiting flag.
`AwaitingResult(q)` of the spec is `lastQuestion = some q` with
`isWaitingForResult = true`. -/
structure TrackerState where
  lastQuestion : Option JStr
  isWaitingForResult : Bool
deriving DecidableEq, Repr

/-- `WocabeeObserver.learnFromCorrectAnswer` (observer.js:170-188).  Note
that `isWaitingForResult = false` is assigned unconditionally at the end of
the handler, whether or not an answer was extracted. -/
def learnFromCorrectAnswer (page : Page) (st : TrackerState)
    (db : WordState) : TrackerState × WordState :=
  match st.lastQuestion with
  | none => (st, db)
  | some q =>
    if q.isEmpty then (st, db)
    else
      let st1 : TrackerState := { st with isWaitingForResult := false }
      match findCorrectAnswer page with
      | some a => if !a.isEmpty then (st1, (addWord q a db).2) else (st1, db)
      | none => (st1, db)

/-- `WocabeeObserver.learnFromIncorrectAnswer` (observer.js:194-212), same
shape with `findRevealedAnswer`. -/
def learnFromIncorrectAnswer (page : Page) (st : TrackerState)
    (db : WordState) : TrackerState × WordState :=
  match st.lastQuestion with
  | none => (st, db)
  | some q =>
    if q.isEmpty then (st, db)
    else
      let st1 : TrackerState := { st with isWaitingForResult := false }
      match findRevealedAnswer page with
      | some a => if !a.isEmpty then (st1, (addWord q a db).2) else (st1, db)
      | none => (st1, db)

/-- `WocabeeObserver.checkForFeedbackAndLearn` (observer.js:135-164): adopt
a newly discovered differing question, bail out without a valid question,
then probe the correct- and incorrect-feedback signals in that order (the
second probe observes the flag cleared by the first handler). -/
def checkForFeedbackAndLearn (page : Page) (st : TrackerState)
    (db : WordState) : TrackerState × WordState :=
  let st0 : TrackerState :=
    match page.currentQuestion with
    | some cq =>
      if !cq.isEmpty && (some cq != st.lastQuestion) then
        { lastQuestion := some cq, isWaitingForResult := true }
      else st
    | none => st
  match st0.lastQuestion with
  | none => (st0, db)
  | some lq =>
    if lq.isEmpty then (st0, db)
    else
      let r1 :=
        if page.correctFeedbackText.isSome && st0.isWaitingForResult then
          learnFromCorrectAnswer page st0 db
        else (st0, db)
      if page.incorrectFeedbackText.isSome && r1.1.isWaitingForResult then
        learnFromIncorrectAnswer page r1.1 r1.2
      else r1

/-! ## DOM elements, the classifier and the question scorer (dom.js)

An `Element` carries exactly the data the embedded code reads from a DOM
node: tag name, child count, text, bounding rectangle, parsed computed font
size and class attribute.  `elemId` is node identity, used by the `Set`
deduplication of `findAll`.  Geometry and font size are modelled as exact
rationals: the only arithmetic performed on them (comparisons, `* 2`,
`* 1.5`) is exact. -/

/-- Data of one DOM node as read by dom.js. -/
structure Element where
  elemId : Nat
  tag : JStr
  childCount : Nat
  rawText : JStr
  rectWidth : Rat
  rectHeight : Rat
  rectTop : Rat
  /-- Result of `parseFloat(style.fontSize)`; `none` models `NaN`. -/
  fontSizeParsed : Option Rat
  className : JStr
deriving DecidableEq, Repr

/-- `WocabeeDom.getText` (dom.js:49-52): trimmed text content. -/
def getTextEl (el : Element) : JStr := jsTrim el.rawText

/-- Worker for `dedupById`. -/
def dedupByIdGo (seen : List Nat) : List Element → List Element
  | [] => []
  | e :: rest =>
    if seen.contains e.elemId then dedupByIdGo seen rest
    else e :: dedupByIdGo (e.elemId :: seen) rest

/-- Identity-based keep-first deduplication, the `[...new Set(results)]` of
`WocabeeDom.findAll` (dom.js:43). -/
def dedupById (es : List Element) : List Element := dedupByIdGo [] es

/-- One item returned by `findAll(selectors.wordPair)`, with the two
sub-queries `extractWordPairs` performs on it (dom.js:374-395). -/
structure PairItem where
  /-- Result of `find(selectors.sourceWord, item)`. -/
  sourceEl : Option Element
  /-- Result of `find(selectors.targetWord, item)`. -/
  targetEl : Option Element
  /-- Results of `item.querySelectorAll('td, .cell, .word')`. -/
  cells : List Element
deriving DecidableEq, Repr

/-- Snapshot of the selector-engine results consumed by
`detectExerciseType` during one classification pass. -/
structure DomPage where
  /-- Per-selector `querySelectorAll` results for `selectors.answerOptions`,
  in selector order, concatenated and deduplicated by `findAll`
  (dom.js:29-44). -/
  optionMatches : List (List Element)
  /-- Whether `findAnswerInput()` (dom.js:360-362) found a node. -/
  answerInputFound : Bool
  /-- Whether `find(selectors.gameContainer)` found a node. -/
  gameContainerFound : Bool
  /-- Whether `find(selectors.testContainer)` found a node. -/
  testContainerFound : Bool
  /-- Items returned by `findAll(selectors.wordPair)` (dom.js:372). -/
  wordPairItems : List PairItem
deriving DecidableEq, Repr

/-- `WocabeeDom.findAll` (dom.js:29-44): union of the per-selector results
in order, deduplicated by node identity. -/
def findAllModel (matchesPerSelector : List (List Element)) : List Element :=
  dedupById matchesPerSelector.flatten

/-- `WocabeeDom.findAnswerOptions` (dom.js:346-355): the deduplicated
answer-option candidates restricted to those bearing text of length
1-199. -/
def findAnswerOptions (p : DomPage) : List Element :=
  (findAllModel p.optionMatches).filter
    (fun opt =>
      let text := getTextEl opt
      !text.isEmpty && text.length < 200)

/-- `WocabeeDom.extractWordPairs` (dom.js:367-399): source/target
sub-elements when both are present, otherwise the first two cells. -/
def extractWordPairs (p : DomPage) : List (JStr × JStr) :=
  p.wordPairItems.foldl
    (fun pairs item =>
      match item.sourceEl, item.targetEl with
      | some s, some t =>
        let sourceText := getTextEl s
        let targetText := getTextEl t
        if !sourceText.isEmpty && !targetText.isEmpty then
          pairs ++ [(sourceText, targetText)]
        else pairs
      | _, _ =>
        match item.cells with
        | c0 :: c1 :: _ =>
          let sourceText := getTextEl c0
          let targetText := getTextEl c1
          if !sourceText.isEmpty && !targetText.isEmpty then
            pairs ++ [(sourceText, targetText)]
          else pairs
        | _ => pairs)
    []

/-- The classifier's result values (dom.js returns these strings or
`null`). -/
inductive ExerciseType where
  | selection
  | typing
  | game
  | test
  | vocabulary
deriving DecidableEq, Repr

/-- `WocabeeDom.detectExerciseType` (dom.js:404-436): option count first,
then input presence, then game, test, vocabulary. -/
def detectExerciseType (p : DomPage) : Option ExerciseType :=
  if (findAnswerOptions p).length ≥ 2 then some .selection
  else if p.answerInputFound then some .typing
  else if p.gameContainerFound then some .game
  else if p.testContainerFound then some .test
  else if (extractWordPairs p).length > 0 then some .vocabulary
  else none

/-- Tags excluded from the strategy-2 scan of `findCurrentQuestion`
(dom.js:200-202). -/
def scoreExcluded (el : Element) : Bool :=
  [jstr "SCRIPT", jstr "STYLE", jstr "INPUT", jstr "BUTTON", jstr "A",
   jstr "HTML", jstr "BODY", jstr "HEAD"].contains el.tag

/-- All `continue` guards of the strategy-2 loop (dom.js:200-212): an
element takes part in scoring iff it passes every one of them. -/
def qualifies (el : Element) : Bool :=
  !scoreExcluded el &&
  el.childCount ≤ 2 &&
  (let text := getTextEl el
   !text.isEmpty && text.length ≥ 2 && text.length ≤ 100 &&
   !isUIText (lowerStr text)) &&
  !(el.rectWidth == 0) && !(el.rectHeight == 0)

/-- Tag test `tagName.match(/^H[1-6]$/)` (dom.js:221). -/
def isHeadingTag (t : JStr) : Bool :=
  match t with
  | [c, d] => c == 'H' && ('1' ≤ d && d ≤ '6')
  | _ => false

/-- Class test `className.toString().match(/word|question|vocab/i)` guarded
by `el.className &&` (dom.js:222). -/
def classWordLike (cls : JStr) : Bool :=
  !cls.isEmpty &&
  (hasSub (lowerStr cls) (jstr "word") ||
   hasSub (lowerStr cls) (jstr "question") ||
   hasSub (lowerStr cls) (jstr "vocab"))

/-- Score of a qualifying element (dom.js:214-222): computed font size
(`|| 12`), doubled in the upper half of the viewport, times 1.5 for a
heading tag, doubled for a word/question/vocab class. -/
def scoreEl (innerHeight : Rat) (el : Element) : Rat :=
  let fontSize : Rat :=
    match el.fontSizeParsed with
    | some q => if q == 0 then 12 else q
    | none => 12
  let isInViewport := 0 ≤ el.rectTop && el.rectTop < innerHeight / 2
  let s1 := fontSize
  let s2 := if isInViewport then s1 * 2 else s1
  let s3 := if isHeadingTag el.tag then s2 * (3 / 2) else s2
  if classWordLike el.className then s3 * 2 else s3

/-- The strategy-2 accumulation loop (dom.js:199-228): keep the candidate
text whose score strictly exceeds the best so far. -/
def scanBest (innerHeight : Rat) :
    List Element → Option JStr → Rat → Option JStr
  | [], best, _ => best
  | el :: rest, best, bestScore =>
    if qualifies el then
      let score := scoreEl innerHeight el
      if bestScore < score then
        scanBest innerHeight rest (some (getTextEl el)) score
      else scanBest innerHeight rest best bestScore
    else scanBest innerHeight rest best bestScore

/-- Strategy 2 of `WocabeeDom.findCurrentQuestion` (dom.js:194-232): global
scoring over all elements in document order (`querySelectorAll('*')`),
starting from `bestCandidate = null`, `bestScore = 0`. -/
def findQuestionByScoring (innerHeight : Rat) (els : List Element) :
    Option JStr :=
  scanBest innerHeight els none 0

/-! ## Normalization lemmas

`normalizeWord` is idempotent: its output has no leading/trailing
whitespace, all its whitespace is isolated single spaces, and all its
characters are `toLowerCase`-fixed, so a second pass is the identity. -/

/-- Predicate: the first character, when present, is not whitespace. -/
def headNotWs (l : JStr) : Prop :=
  ∀ c, l.head? = some c → isJsWs c = false

/-- Predicate: the last character, when present, is not whitespace. -/
def lastNotWs (l : JStr) : Prop :=
  ∀ c, l.getLast? = some c → isJsWs c = false

theorem lowerPairs_snd_fix : ∀ p ∈ lowerPairs, jsToLower p.2 = p.2 := by
  decide

theorem lowerPairs_fst_not_ws : ∀ p ∈ lowerPairs, isJsWs p.1 = false := by
  decide

theorem lowerPairs_snd_not_ws : ∀ p ∈ lowerPairs, isJsWs p.2 = false := by
  decide

theorem jsToLower_idem (c : Char) : jsToLower (jsToLower c) = jsToLower c := by
  cases h : lowerPairs.find? (fun p => p.1 == c) with
  | none =>
    have h1 : jsToLower c = c := by unfold jsToLower; rw [h]
    rw [h1, h1]
  | some p =>
    have h1 : jsToLower c = p.2 := by unfold jsToLower; rw [h]
    rw [h1]
    exact lowerPairs_snd_fix p (List.mem_of_find?_eq_some h)

theorem isJsWs_jsToLower (c : Char) : isJsWs (jsToLower c) = isJsWs c := by
  cases h : lowerPairs.find? (fun p => p.1 == c) with
  | none =>
    have h1 : jsToLower c = c := by unfold jsToLower; rw [h]
    rw [h1]
  | some p =>
    have h1 : jsToLower c = p.2 := by unfold jsToLower; rw [h]
    have hmem := List.mem_of_find?_eq_some h
    have hpc : p.1 = c := by simpa using List.find?_some h
    rw [h1, lowerPairs_snd_not_ws p hmem, ← hpc,
      lowerPairs_fst_not_ws p hmem]

theorem dropWhile_head_not (p : Char → Bool) (l : JStr) :
    ∀ c, (l.dropWhile p).head? = some c → p c = false := by
  induction l with
  | nil => intro c h; simp [List.dropWhile] at h
  | cons a rest ih =>
    intro c h
    by_cases hp : p a
    · rw [List.dropWhile_cons, if_pos hp] at h
      exact ih c h
    · rw [List.dropWhile_cons, if_neg hp] at h
      simp only [List.head?_cons, Option.some.injEq] at h
      subst h
      simpa using hp

theorem dropWhile_getLast? (p : Char → Bool) (l : JStr)
    (h : l.dropWhile p ≠ []) : (l.dropWhile p).getLast? = l.getLast? := by
  induction l with
  | nil => simp [List.dropWhile] at h
  | cons a rest ih =>
    by_cases hp : p a
    · rw [List.dropWhile_cons, if_pos hp] at h ⊢
      have hr : rest ≠ [] := by
        intro he
        rw [he] at h
        simp [List.dropWhile] at h
      rw [ih h]
      cases rest with
      | nil => exact absurd rfl hr
      | cons b l2 => rw [List.getLast?_cons_cons]
    · rw [List.dropWhile_cons, if_neg hp]

theorem dropWhile_eq_self_of_head (p : Char → Bool) (l : JStr)
    (h : ∀ c, l.head? = some c → p c = false) : l.dropWhile p = l := by
  cases l with
  | nil => rfl
  | cons a rest =>
    rw [List.dropWhile_cons, if_neg]
    simp [h a rfl]

theorem jsTrim_eq_self (s : JStr) (h1 : headNotWs s) (h2 : lastNotWs s) :
    jsTrim s = s := by
  unfold jsTrim
  rw [dropWhile_eq_self_of_head _ _ h1]
  rw [dropWhile_eq_self_of_head _ _
    (fun c hc => h2 c (by rwa [List.head?_reverse] at hc))]
  exact List.reverse_reverse s

theorem jsTrim_headNotWs (s : JStr) : headNotWs (jsTrim s) := by
  intro c hc
  unfold jsTrim at hc
  rw [List.head?_reverse] at hc
  by_cases hne :
      ((s.dropWhile isJsWs).reverse.dropWhile isJsWs) = []
  · rw [hne] at hc; simp at hc
  · rw [dropWhile_getLast? _ _ hne, List.getLast?_reverse] at hc
    exact dropWhile_head_not _ _ c hc

theorem jsTrim_lastNotWs (s : JStr) : lastNotWs (jsTrim s) := by
  intro c hc
  unfold jsTrim at hc
  rw [List.getLast?_reverse] at hc
  exact dropWhile_head_not _ _ c hc

theorem map_eq_self_of_fix (f : Char → Char) (l : JStr)
    (h : ∀ c ∈ l, f c = c) : l.map f = l := by
  induction l with
  | nil => rfl
  | cons a rest ih =>
    simp only [List.map_cons, h a (List.mem_cons_self a rest),
      List.cons.injEq, true_and]
    exact ih (fun c hc => h c (List.mem_cons_of_mem a hc))

/-- State-machine acceptance of a normalized string: whitespace characters
are exactly single spaces separating non-whitespace runs, no trailing
space, all characters `toLowerCase`-fixed; the flag records whether the
previous character was the single allowed space. -/
def normedGo : Bool → JStr → Bool
  | afterSpace, [] => !afterSpace
  | afterSpace, c :: rest =>
    if isJsWs c then (c == ' ') && !afterSpace && normedGo true rest
    else (jsToLower c == c) && normedGo false rest

/-- A string is normalized when it does not start with whitespace and
passes `normedGo`. -/
def isNormed (s : JStr) : Bool :=
  (match s.head? with
   | none => true
   | some c => !isJsWs c) && normedGo false s

theorem ws_space : isJsWs ' ' = true := by decide

theorem normedGo_cons_ws (b : Bool) (a : Char) (rest : JStr)
    (hws : isJsWs a = true) (h : normedGo b (a :: rest) = true) :
    a = ' ' ∧ b = false ∧ normedGo true rest = true := by
  simp only [normedGo, if_pos hws, Bool.and_eq_true, beq_iff_eq,
    Bool.not_eq_true'] at h
  exact ⟨h.1.1, h.1.2, h.2⟩

theorem normedGo_cons_not_ws (b : Bool) (a : Char) (rest : JStr)
    (hws : isJsWs a = false) (h : normedGo b (a :: rest) = true) :
    jsToLower a = a ∧ normedGo false rest = true := by
  simp only [normedGo, hws, Bool.false_eq_true, if_false, Bool.and_eq_true,
    beq_iff_eq] at h
  exact h

theorem normedGo_last (s : JStr) :
    ∀ b, normedGo b s = true → lastNotWs s := by
  induction s with
  | nil => intro b _ c hc; simp at hc
  | cons a rest ih =>
    intro b h c hc
    cases hr : rest with
    | nil =>
      subst hr
      simp only [List.getLast?_singleton, Option.some.injEq] at hc
      subst hc
      by_cases hws : isJsWs a
      · obtain ⟨_, _, h3⟩ := normedGo_cons_ws b a [] hws h
        exact absurd h3 (by simp [normedGo])
      · simpa using hws
    | cons b2 l2 =>
      subst hr
      rw [List.getLast?_cons_cons] at hc
      by_cases hws : isJsWs a
      · exact ih true (normedGo_cons_ws b a _ hws h).2.2 c hc
      · exact ih false (normedGo_cons_not_ws b a _ (by simpa using hws) h).2
          c hc

theorem normedGo_lower (s : JStr) :
    ∀ b, normedGo b s = true → ∀ c ∈ s, jsToLower c = c := by
  induction s with
  | nil => intro b _ c hc; simp at hc
  | cons a rest ih =>
    intro b h c hc
    by_cases hws : isJsWs a
    · obtain ⟨ha, _, h3⟩ := normedGo_cons_ws b a rest hws h
      rcases List.mem_cons.mp hc with hca | hcr
      · subst hca; subst ha; decide
      · exact ih true h3 c hcr
    · obtain ⟨ha, h2⟩ := normedGo_cons_not_ws b a rest (by simpa using hws) h
      rcases List.mem_cons.mp hc with hca | hcr
      · subst hca; exact ha
      · exact ih false h2 c hcr

theorem collapseGo_eq_self (s : JStr) :
    ∀ b, normedGo b s = true → collapseGo b s = s := by
  induction s with
  | nil => intro b _; rfl
  | cons a rest ih =>
    intro b h
    by_cases hws : isJsWs a
    · obtain ⟨ha, hb, h3⟩ := normedGo_cons_ws b a rest hws h
      subst hb
      subst ha
      simp only [collapseGo, if_pos hws, Bool.false_eq_true, if_false]
      rw [ih true h3]
    · obtain ⟨_, h2⟩ := normedGo_cons_not_ws b a rest (by simpa using hws) h
      simp only [collapseGo, hws, Bool.false_eq_true, if_false]
      rw [ih false h2]

theorem collapse_normedGo (s : JStr) :
    ∀ b, (∀ c ∈ s, jsToLower c = c) → lastNotWs s →
      (b = true → s ≠ []) → normedGo b (collapseGo b s) = true := by
  induction s with
  | nil =>
    intro b _ _ h3
    cases b
    · decide
    · exact absurd rfl (h3 rfl)
  | cons a rest ih =>
    intro b h1 h2 _
    have h1r : ∀ c ∈ rest, jsToLower c = c :=
      fun c hc => h1 c (List.mem_cons_of_mem a hc)
    have h2r : lastNotWs rest := by
      intro c hc
      cases rest with
      | nil => simp at hc
      | cons b2 l2 => exact h2 c (by rwa [List.getLast?_cons_cons])
    by_cases hws : isJsWs a
    · have hrne : rest ≠ [] := by
        intro he
        subst he
        have h2a := h2 a (by simp)
        rw [h2a] at hws
        exact Bool.false_ne_true hws
      have hrec := ih true h1r h2r (fun _ => hrne)
      cases b with
      | true =>
        simpa only [collapseGo, if_pos hws, if_pos rfl] using hrec
      | false =>
        simp only [collapseGo, if_pos hws, Bool.false_eq_true, if_false]
        simp only [normedGo, ws_space, if_pos rfl, Bool.and_eq_true,
          beq_self_eq_true, Bool.not_false, and_self, true_and]
        exact hrec
    · have hrec := ih false h1r h2r (by intro h; exact absurd h (by simp))
      simp only [collapseGo, hws, Bool.false_eq_true, if_false]
      have hwsf : isJsWs a = false := by simpa using hws
      simp only [normedGo, hwsf, Bool.false_eq_true, if_false,
        Bool.and_eq_true, beq_iff_eq]
      exact ⟨h1 a (List.mem_cons_self a rest), hrec⟩

theorem isNormed_normalizeWord (w : JStr) :
    isNormed (normalizeWord w) = true := by
  have hu1 : headNotWs (lowerStr (jsTrim w)) := by
    intro c hc
    unfold lowerStr at hc
    rw [List.head?_map] at hc
    cases hh : (jsTrim w).head? with
    | none => rw [hh] at hc; simp at hc
    | some d =>
      rw [hh] at hc
      simp only [Option.map_some', Option.some.injEq] at hc
      subst hc
      rw [isJsWs_jsToLower]
      exact jsTrim_headNotWs w d hh
  have hu2 : lastNotWs (lowerStr (jsTrim w)) := by
    intro c hc
    unfold lowerStr at hc
    rw [List.getLast?_map] at hc
    cases hh : (jsTrim w).getLast? with
    | none => rw [hh] at hc; simp at hc
    | some d =>
      rw [hh] at hc
      simp only [Option.map_some', Option.some.injEq] at hc
      subst hc
      rw [isJsWs_jsToLower]
      exact jsTrim_lastNotWs w d hh
  have hu3 : ∀ c ∈ lowerStr (jsTrim w), jsToLower c = c := by
    intro c hc
    rcases List.mem_map.mp hc with ⟨d, _, hd⟩
    subst hd
    exact jsToLower_idem d
  unfold isNormed normalizeWord collapseWs
  rw [Bool.and_eq_true]
  constructor
  · cases hu : lowerStr (jsTrim w) with
    | nil => rfl
    | cons c rest =>
      have hcws : isJsWs c = false := by
        have := hu1 c
        rw [hu] at this
        exact this rfl
      simp [collapseGo, hcws]
  · exact collapse_normedGo _ false hu3 hu2 (by intro h; exact absurd h (by simp))

theorem normalizeWord_of_isNormed (s : JStr) (h : isNormed s = true) :
    normalizeWord s = s := by
  unfold isNormed at h
  rw [Bool.and_eq_true] at h
  obtain ⟨hhead, hgo⟩ := h
  have hhead' : headNotWs s := by
    intro c hc
    rw [hc] at hhead
    simpa using hhead
  have hlast := normedGo_last s false hgo
  have hlow := normedGo_lower s false hgo
  unfold normalizeWord
  rw [jsTrim_eq_self s hhead' hlast]
  unfold lowerStr
  rw [map_eq_self_of_fix _ _ hlow]
  exact collapseGo_eq_self s false hgo

theorem normalizeWord_idem (w : JStr) :
    normalizeWord (normalizeWord w) = normalizeWord w :=
  normalizeWord_of_isNormed _ (isNormed_normalizeWord w)

/-! ## Map lemmas -/

theorem mapHas_cons {α : Type} (k1 : JStr) (v1 : α) (rest : List (JStr × α))
    (k : JStr) :
    mapHas ((k1, v1) :: rest) k = ((k1 == k) || mapHas rest k) := by
  simp [mapHas]

theorem find?_cons_pair {α : Type} (q : JStr) (p0 : JStr × α)
    (rest : List (JStr × α)) :
    (p0 :: rest).find? (fun p => p.1 == q) =
      if p0.1 == q then some p0 else rest.find? (fun p => p.1 == q) := by
  by_cases h : p0.1 == q
  · rw [if_pos h]
    exact List.find?_cons_of_pos _ h
  · rw [if_neg h]
    exact List.find?_cons_of_neg _ h

theorem find?_none_of_not_has {α : Type} {m : List (JStr × α)} {k : JStr}
    (h : mapHas m k = false) : m.find? (fun p => p.1 == k) = none := by
  rw [List.find?_eq_none]
  intro p hp
  intro hpk
  rw [mapHas, List.any_eq_false] at h
  exact absurd hpk (h p hp)

theorem find?_map_update_self {α : Type} (m : List (JStr × α)) (k : JStr)
    (v : α) (h : mapHas m k = true) :
    (m.map (fun p => if p.1 == k then (k, v) else p)).find?
      (fun p => p.1 == k) = some (k, v) := by
  induction m with
  | nil => simp [mapHas] at h
  | cons p rest ih =>
    by_cases hp : p.1 == k
    · simp only [List.map_cons, if_pos hp]
      rw [find?_cons_pair, if_pos (by simp : (((k, v) : JStr × α).1 == k) = true)]
    · simp only [List.map_cons, if_neg hp]
      rw [find?_cons_pair, if_neg hp]
      apply ih
      rw [mapHas_cons] at h
      rcases Bool.or_eq_true_iff.mp h with h1 | h1
      · exact absurd h1 hp
      · exact h1

theorem find?_map_update_other {α : Type} (m : List (JStr × α))
    (k k' : JStr) (v : α) (h : k' ≠ k) :
    (m.map (fun p => if p.1 == k then (k, v) else p)).find?
      (fun p => p.1 == k') = m.find? (fun p => p.1 == k') := by
  induction m with
  | nil => rfl
  | cons p rest ih =>
    by_cases hp : p.1 == k
    · have hpk : p.1 = k := by simpa using hp
      simp only [List.map_cons, if_pos hp]
      rw [find?_cons_pair, find?_cons_pair]
      have h1 : (((k, v) : JStr × α).1 == k') = false := by
        simp [Ne.symm h]
      have h2 : (p.1 == k') = false := by simp [hpk, Ne.symm h]
      rw [if_neg (by simp [h1]), if_neg (by simp [h2])]
      exact ih
    · simp only [List.map_cons, if_neg hp]
      rw [find?_cons_pair, find?_cons_pair]
      by_cases hp' : p.1 == k'
      · rw [if_pos hp', if_pos hp']
      · rw [if_neg hp', if_neg hp', ih]

theorem mapGet?_set_self {α : Type} (m : List (JStr × α)) (k : JStr)
    (v : α) : mapGet? (mapSet m k v) k = some v := by
  unfold mapSet
  by_cases h : mapHas m k
  · rw [if_pos h]
    unfold mapGet?
    rw [find?_map_update_self m k v h]
    rfl
  · rw [if_neg h]
    unfold mapGet?
    rw [List.find?_append,
      find?_none_of_not_has (Bool.not_eq_true _ ▸ h), Option.none_or,
      List.find?_singleton,
      if_pos (by simp : (((k, v) : JStr × α).1 == k) = true)]
    rfl

theorem mapGet?_set_other {α : Type} (m : List (JStr × α)) (k k' : JStr)
    (v : α) (h : k' ≠ k) :
    mapGet? (mapSet m k v) k' = mapGet? m k' := by
  unfold mapSet
  by_cases hh : mapHas m k
  · rw [if_pos hh]
    unfold mapGet?
    rw [find?_map_update_other m k k' v h]
  · rw [if_neg hh]
    unfold mapGet?
    rw [List.find?_append, List.find?_singleton,
      if_neg (by simp [Ne.symm h] :
        ¬(((k, v) : JStr × α).1 == k') = true)]
    rw [Option.or_none]

theorem mapHas_eq_isSome {α : Type} (m : List (JStr × α)) (k : JStr) :
    mapHas m k = (mapGet? m k).isSome := by
  unfold mapGet?
  cases hf : m.find? (fun p => p.1 == k) with
  | none =>
    simp only [Option.map_none', Option.isSome_none]
    rw [mapHas, List.any_eq_false]
    intro p hp
    have := List.find?_eq_none.mp hf p hp
    simpa using this
  | some p =>
    simp only [Option.map_some', Option.isSome_some]
    rw [mapHas, List.any_eq_true]
    refine ⟨p, List.mem_of_find?_eq_some hf, ?_⟩
    have := List.find?_some hf
    simpa using this

theorem mapHas_of_get {α : Type} {m : List (JStr × α)} {k : JStr} {v : α}
    (h : mapGet? m k = some v) : mapHas m k = true := by
  rw [mapHas_eq_isSome, h]
  rfl

theorem mapGet?_of_not_has {α : Type} {m : List (JStr × α)} {k : JStr}
    (h : mapHas m k = false) : mapGet? m k = none := by
  unfold mapGet?
  rw [find?_none_of_not_has h]
  rfl

theorem mapHas_set_self {α : Type} (m : List (JStr × α)) (k : JStr)
    (v : α) : mapHas (mapSet m k v) k = true :=
  mapHas_of_get (mapGet?_set_self m k v)

theorem mapHas_set_other {α : Type} (m : List (JStr × α)) (k k' : JStr)
    (v : α) (h : k' ≠ k) : mapHas (mapSet m k v) k' = mapHas m k' := by
  rw [mapHas_eq_isSome, mapHas_eq_isSome, mapGet?_set_other m k k' v h]

/-! ## Characterization of `addWord` -/

/-- Current translation list of a source key (empty when absent). -/
def curList (st : WordState) (s : JStr) : List JStr :=
  (mapGet? st.wordDatabase s).getD []

/-- Current source list of a target key in the reverse index (empty when
absent). -/
def revCurList (st : WordState) (t : JStr) : List JStr :=
  (mapGet? st.reverseDatabase t).getD []

/-- The validation chain of `addWord` (state.js:136-155) on the normalized
pair. -/
def validNormPair (s t : JStr) : Bool :=
  !(s.isEmpty || t.isEmpty) && !(s == t) &&
  !(isAllDigits s || isAllDigits t) &&
  !((s.takeWhile isDigitC).length ≥ 10 ||
    (t.takeWhile isDigitC).length ≥ 10) &&
  !((s.filter isLetterJs).length < 2 || (t.filter isLetterJs).length < 2) &&
  !(uiWords.any (fun w => hasSub (lowerStr s) w || hasSub (lowerStr t) w))

/-- Full validation of a raw pair: raw non-emptiness plus `validNormPair`
of the normalizations. -/
def validAddCheck (a b : JStr) : Bool :=
  !(a.isEmpty || b.isEmpty) &&
  validNormPair (normalizeWord a) (normalizeWord b)

/-- Success-path successor state of `addWord` for an already-normalized
pair: the primary and reverse updates of state.js:157-177. -/
def addApplied (s t : JStr) (st : WordState) : WordState :=
  let st1 :=
    if mapHas st.wordDatabase s then st
    else { st with wordDatabase := mapSet st.wordDatabase s [] }
  let translations := (mapGet? st1.wordDatabase s).getD []
  let st2 := { st1 with
    wordDatabase := mapSet st1.wordDatabase s (translations ++ [t]),
    wordsIndexed := st1.wordsIndexed + 1 }
  let st3 :=
    if mapHas st2.reverseDatabase t then st2
    else { st2 with reverseDatabase := mapSet st2.reverseDatabase t [] }
  let sources := (mapGet? st3.reverseDatabase t).getD []
  if sources.contains s then st3
  else { st3 with
    reverseDatabase := mapSet st3.reverseDatabase t (sources ++ [s]) }

theorem contains_eq_true_iff_mem (l : List JStr) (x : JStr) :
    l.contains x = true ↔ x ∈ l :=
  ⟨fun h => List.mem_of_elem_eq_true h, fun h => List.elem_eq_true_of_mem h⟩

theorem addWord_result (a b : JStr) (st : WordState) :
    addWord a b st =
      if validAddCheck a b = true then
        (if normalizeWord b ∈ curList st (normalizeWord a) then (false, st)
         else (true, addApplied (normalizeWord a) (normalizeWord b) st))
      else (false, st) := by
  by_cases h1 : (a.isEmpty || b.isEmpty) = true
  · unfold addWord validAddCheck
    simp [h1]
  · by_cases h2 : ((normalizeWord a).isEmpty ||
        (normalizeWord b).isEmpty) = true
    · unfold addWord validAddCheck validNormPair
      simp [h1, h2]
    · by_cases h3 : (normalizeWord a == normalizeWord b) = true
      · unfold addWord validAddCheck validNormPair
        simp [h1, h2, h3]
      · by_cases h4 : (isAllDigits (normalizeWord a) ||
            isAllDigits (normalizeWord b)) = true
        · unfold addWord validAddCheck validNormPair
          simp [h1, h2, h3, h4]
        · by_cases h5 : (decide
              (((normalizeWord a).takeWhile isDigitC).length ≥ 10) ||
            decide
              (((normalizeWord b).takeWhile isDigitC).length ≥ 10)) = true
          · unfold addWord validAddCheck validNormPair
            simp [h1, h2, h3, h4, h5]
          · by_cases h6 : (decide
                (((normalizeWord a).filter isLetterJs).length < 2) ||
              decide
                (((normalizeWord b).filter isLetterJs).length < 2)) = true
            · unfold addWord validAddCheck validNormPair
              simp only [h1, h2, h3, h4, h5, h6]
              simp
            · by_cases h7 : (uiWords.any (fun w =>
                  hasSub (lowerStr (normalizeWord a)) w ||
                  hasSub (lowerStr (normalizeWord b)) w)) = true
              · unfold addWord validAddCheck validNormPair
                simp only [h1, h2, h3, h4, h5, h6, h7]
                simp
              · have hval : validAddCheck a b = true := by
                  unfold validAddCheck validNormPair
                  simp_all
                rw [if_pos hval]
                unfold addWord
                simp only [h1, Bool.false_eq_true, if_false, h2, h3, h4, h5,
                  h6, h7]
                by_cases hh : mapHas st.wordDatabase (normalizeWord a) = true
                · simp only [hh, if_true]
                  by_cases hm : normalizeWord b ∈ curList st (normalizeWord a)
                  · rw [if_pos hm]
                    have hc : (curList st (normalizeWord a)).contains
                        (normalizeWord b) = true :=
                      (contains_eq_true_iff_mem _ _).mpr hm
                    unfold curList at hc
                    rw [hc, if_pos rfl]
                  · rw [if_neg hm]
                    have hc : (curList st (normalizeWord a)).contains
                        (normalizeWord b) = false := by
                      rw [Bool.eq_false_iff]
                      intro hc1
                      exact hm ((contains_eq_true_iff_mem _ _).mp hc1)
                    unfold curList at hc
                    simp only [hc, Bool.false_eq_true, if_false]
                    unfold addApplied
                    simp only [hh, if_true]
                    split <;> split <;> rfl
                · simp only [hh, Bool.false_eq_true, if_false]
                  have hget : mapGet? st.wordDatabase (normalizeWord a)
                      = none :=
                    mapGet?_of_not_has (by simpa using hh)
                  have hm : normalizeWord b ∉ curList st (normalizeWord a) := by
                    simp [curList, hget]
                  rw [if_neg hm]
                  have hset : mapGet?
                      (mapSet st.wordDatabase (normalizeWord a) [])
                      (normalizeWord a) = some [] :=
                    mapGet?_set_self _ _ _
                  simp only [hset, Option.getD_some, List.contains_nil,
                    Bool.false_eq_true, if_false]
                  unfold addApplied
                  simp [hh, hset]
                  split <;> split <;> rfl

theorem addWord_false_state (a b : JStr) (st : WordState)
    (h : (addWord a b st).1 = false) : (addWord a b st).2 = st := by
  rw [addWord_result] at h ⊢
  by_cases h1 : validAddCheck a b = true
  · rw [if_pos h1] at h ⊢
    by_cases h2 : normalizeWord b ∈ curList st (normalizeWord a)
    · rw [if_pos h2]
    · rw [if_neg h2] at h
      simp at h
  · rw [if_neg h1]

theorem addWord_true_iff (a b : JStr) (st : WordState) :
    (addWord a b st).1 = true ↔
      validAddCheck a b = true ∧
        normalizeWord b ∉ curList st (normalizeWord a) := by
  rw [addWord_result]
  by_cases h1 : validAddCheck a b = true
  · rw [if_pos h1]
    by_cases h2 : normalizeWord b ∈ curList st (normalizeWord a)
    · rw [if_pos h2]
      simp [h1, h2]
    · rw [if_neg h2]
      simp [h1, h2]
  · rw [if_neg h1]
    simp [h1]

theorem addWord_true_state (a b : JStr) (st : WordState)
    (h : (addWord a b st).1 = true) :
    (addWord a b st).2 =
      addApplied (normalizeWord a) (normalizeWord b) st := by
  obtain ⟨h1, h2⟩ := (addWord_true_iff a b st).mp h
  rw [addWord_result, if_pos h1, if_neg h2]

/-! ## Shape of `addApplied` -/

theorem map_update_absent {α : Type} (m : List (JStr × α)) (k : JStr)
    (v : α) (h : mapHas m k = false) :
    m.map (fun p => if p.1 == k then (k, v) else p) = m := by
  induction m with
  | nil => rfl
  | cons p rest ih =>
    rw [mapHas_cons] at h
    rcases Bool.or_eq_false_iff.mp h with ⟨hp, hrest⟩
    simp only [List.map_cons, hp, Bool.false_eq_true, if_false,
      List.cons.injEq, true_and]
    exact ih hrest

theorem mapSet_absent {α : Type} (m : List (JStr × α)) (k : JStr) (v : α)
    (h : mapHas m k = false) : mapSet m k v = m ++ [(k, v)] := by
  unfold mapSet
  rw [if_neg (by simp [h])]

theorem mapHas_append_one {α : Type} (m : List (JStr × α))
    (e : JStr × α) (k : JStr) :
    mapHas (m ++ [e]) k = (mapHas m k || (e.1 == k)) := by
  simp [mapHas]

theorem mapGet?_append_last {α : Type} (done : List (JStr × α)) (k : JStr)
    (v : α) (h : mapHas done k = false) :
    mapGet? (done ++ [(k, v)]) k = some v := by
  unfold mapGet?
  rw [List.find?_append, find?_none_of_not_has h, Option.none_or,
    List.find?_singleton, if_pos (by simp)]
  rfl

theorem mapSet_append_last {α : Type} (done : List (JStr × α)) (k : JStr)
    (v w : α) (h : mapHas done k = false) :
    mapSet (done ++ [(k, v)]) k w = done ++ [(k, w)] := by
  unfold mapSet
  rw [if_pos (mapHas_of_get (mapGet?_append_last done k v h))]
  rw [List.map_append, map_update_absent done k w h]
  simp

/-- The primary mapping after a successful add: the key `s` gets
`curList st s ++ [t]`, everything else is untouched (including the case
where `s` was absent and an empty list was created first). -/
theorem addApplied_wordDb (s t : JStr) (st : WordState) :
    (addApplied s t st).wordDatabase =
      mapSet (if mapHas st.wordDatabase s then st.wordDatabase
              else mapSet st.wordDatabase s []) s (curList st s ++ [t]) := by
  unfold addApplied
  by_cases hh : mapHas st.wordDatabase s = true
  · simp only [hh, if_true]
    have : curList st s = (mapGet? st.wordDatabase s).getD [] := rfl
    rw [this]
    split <;> split <;> rfl
  · simp only [hh, Bool.false_eq_true, if_false]
    have hset : mapGet? (mapSet st.wordDatabase s []) s = some [] :=
      mapGet?_set_self _ _ _
    have hcur : curList st s = [] := by
      unfold curList
      rw [mapGet?_of_not_has (by simpa using hh)]
      rfl
    rw [hcur]
    simp only [hset, Option.getD_some, List.nil_append]
    split <;> split <;> rfl

/-- The reverse index after a successful add: the key `t` gets `s`
appended when absent there, everything else is untouched. -/
theorem addApplied_revDb (s t : JStr) (st : WordState) :
    (addApplied s t st).reverseDatabase =
      (if (revCurList st t).contains s then
        (if mapHas st.reverseDatabase t then st.reverseDatabase
         else mapSet st.reverseDatabase t [])
       else
        mapSet (if mapHas st.reverseDatabase t then st.reverseDatabase
                else mapSet st.reverseDatabase t []) t
          (revCurList st t ++ [s])) := by
  unfold addApplied
  by_cases hr : mapHas st.reverseDatabase t = true
  · have : revCurList st t = (mapGet? st.reverseDatabase t).getD [] := rfl
    rw [this]
    split <;> simp only [hr, if_true] <;> split <;> rfl
  · have hset : mapGet? (mapSet st.reverseDatabase t []) t = some [] :=
      mapGet?_set_self _ _ _
    have hcur : revCurList st t = [] := by
      unfold revCurList
      rw [mapGet?_of_not_has (by simpa using hr)]
      rfl
    rw [hcur]
    split <;> simp only [hr, Bool.false_eq_true, if_false] <;>
      simp [hset]

theorem addApplied_get_self (s t : JStr) (st : WordState) :
    mapGet? (addApplied s t st).wordDatabase s =
      some (curList st s ++ [t]) := by
  rw [addApplied_wordDb]
  exact mapGet?_set_self _ _ _

theorem addApplied_get_other (s t x : JStr) (st : WordState) (hx : x ≠ s) :
    mapGet? (addApplied s t st).wordDatabase x =
      mapGet? st.wordDatabase x := by
  rw [addApplied_wordDb, mapGet?_set_other _ _ _ _ hx]
  split
  · rfl
  · exact mapGet?_set_other _ _ _ _ hx

theorem addApplied_rev_self (s t : JStr) (st : WordState) :
    mapGet? (addApplied s t st).reverseDatabase t =
      some (if (revCurList st t).contains s then revCurList st t
            else revCurList st t ++ [s]) := by
  rw [addApplied_revDb]
  by_cases hc : (revCurList st t).contains s = true
  · rw [if_pos hc, if_pos hc]
    by_cases hr : mapHas st.reverseDatabase t = true
    · rw [if_pos hr]
      unfold revCurList
      cases hg : mapGet? st.reverseDatabase t with
      | none =>
        rw [mapHas_eq_isSome, hg] at hr
        cases hr
      | some l => simp [hg]
    · have hcur : revCurList st t = [] := by
        unfold revCurList
        rw [mapGet?_of_not_has (by simpa using hr)]
        rfl
      rw [hcur] at hc
      cases hc
  · rw [if_neg hc, if_neg hc]
    exact mapGet?_set_self _ _ _

theorem addApplied_rev_other (s t y : JStr) (st : WordState) (hy : y ≠ t) :
    mapGet? (addApplied s t st).reverseDatabase y =
      mapGet? st.reverseDatabase y := by
  rw [addApplied_revDb]
  have hens : mapGet? (if mapHas st.reverseDatabase t then
      st.reverseDatabase else mapSet st.reverseDatabase t []) y =
      mapGet? st.reverseDatabase y := by
    split
    · rfl
    · exact mapGet?_set_other _ _ _ _ hy
  split
  · exact hens
  · rw [mapGet?_set_other _ _ _ _ hy]
    exact hens

theorem addApplied_stats (s t : JStr) (st : WordState) :
    (addApplied s t st).wordsIndexed = st.wordsIndexed + 1 ∧
    (addApplied s t st).answersHelped = st.answersHelped := by
  unfold addApplied
  dsimp only
  split <;> split <;> split <;> exact ⟨rfl, rfl⟩


/-! ## Claim theorems -/

/-- C6: `isUIText` returns `true` on `"123456"`, `"1700000000000"`, `"ok"`
(the lowercasing of `"OK"`), `"next"` and `"správně"`, and `false` on
`"Haus"`, `"dům"` and `"magnifique"`, the diacritic letter `ů` counting
toward the two-letter minimum. -/
theorem c6_isUIText_concrete :
    isUIText (jstr "123456") = true ∧
    isUIText (jstr "1700000000000") = true ∧
    isUIText (jstr "ok") = true ∧
    isUIText (jstr "next") = true ∧
    isUIText (jstr "správně") = true ∧
    isUIText (jstr "Haus") = false ∧
    isUIText (jstr "dům") = false ∧
    isUIText (jstr "magnifique") = false := by
  decide

/-- C4: for a pair that passes validation against the empty store (first
`addWord` returns `true`), the second consecutive `addWord` returns
`false` and leaves the entire store — in particular its key count and its
summed translation count — unchanged. -/
theorem c4_add_idempotent (a b : JStr)
    (h : (addWord a b emptyState).1 = true) :
    (addWord a b (addWord a b emptyState).2).1 = false ∧
    (addWord a b (addWord a b emptyState).2).2 =
      (addWord a b emptyState).2 ∧
    totalWords (addWord a b (addWord a b emptyState).2).2 =
      totalWords (addWord a b emptyState).2 ∧
    totalTranslations (addWord a b (addWord a b emptyState).2).2 =
      totalTranslations (addWord a b emptyState).2 := by
  obtain ⟨hv, _⟩ := (addWord_true_iff a b emptyState).mp h
  have hstate := addWord_true_state a b emptyState h
  have hcur : curList (addWord a b emptyState).2 (normalizeWord a) =
      curList emptyState (normalizeWord a) ++ [normalizeWord b] := by
    rw [hstate]
    unfold curList
    rw [addApplied_get_self]
    rfl
  have hmem : normalizeWord b ∈
      curList (addWord a b emptyState).2 (normalizeWord a) := by
    rw [hcur]
    exact List.mem_append_right _ (List.mem_singleton_self _)
  have h2 : addWord a b (addWord a b emptyState).2 =
      (false, (addWord a b emptyState).2) := by
    rw [addWord_result, if_pos hv, if_pos hmem]
  exact ⟨by rw [h2], by rw [h2], by rw [h2], by rw [h2]⟩

/-- Witness for C4 at the concrete validated pair `("Katze", "cat")`. -/
theorem c4_witness :
    (addWord (jstr "Katze") (jstr "cat") emptyState).1 = true ∧
    (addWord (jstr "Katze") (jstr "cat")
      (addWord (jstr "Katze") (jstr "cat") emptyState).2).1 = false ∧
    (addWord (jstr "Katze") (jstr "cat")
      (addWord (jstr "Katze") (jstr "cat") emptyState).2).2 =
      (addWord (jstr "Katze") (jstr "cat") emptyState).2 := by
  have h := c4_add_idempotent (jstr "Katze") (jstr "cat") (by decide)
  exact ⟨by decide, h.1, h.2.1⟩

/-- C10: `addWord a b` — successful or not — leaves the primary-mapping
entry of every key other than `normalize a` and the reverse-index entry of
every target other than `normalize b` unchanged. -/
theorem c10_add_frame (a b : JStr) (st : WordState) (k u : JStr) :
    (k ≠ normalizeWord a →
      mapGet? (addWord a b st).2.wordDatabase k =
        mapGet? st.wordDatabase k) ∧
    (u ≠ normalizeWord b →
      mapGet? (addWord a b st).2.reverseDatabase u =
        mapGet? st.reverseDatabase u) := by
  cases hb : (addWord a b st).1 with
  | false =>
    have hst := addWord_false_state a b st hb
    rw [hst]
    exact ⟨fun _ => rfl, fun _ => rfl⟩
  | true =>
    have hst := addWord_true_state a b st hb
    rw [hst]
    exact ⟨fun hk => addApplied_get_other _ _ _ st hk,
           fun hu => addApplied_rev_other _ _ _ st hu⟩

/-- Witness for C10 at a concrete call and concrete other keys. -/
theorem c10_witness :
    mapGet? (addWord (jstr "Katze") (jstr "cat") emptyState).2.wordDatabase
        (jstr "hund") = mapGet? emptyState.wordDatabase (jstr "hund") ∧
    mapGet? (addWord (jstr "Katze") (jstr "cat")
        emptyState).2.reverseDatabase
        (jstr "pes") = mapGet? emptyState.reverseDatabase (jstr "pes") :=
  ⟨(c10_add_frame (jstr "Katze") (jstr "cat") emptyState (jstr "hund")
      (jstr "pes")).1 (by decide),
   (c10_add_frame (jstr "Katze") (jstr "cat") emptyState (jstr "hund")
      (jstr "pes")).2 (by decide)⟩

/-- Worker lemma for C9: a target array whose every element is rejected by
`addWord` leaves the running accumulator of `importDatabase` unchanged. -/
theorem foldl_addWordVal_id (sKey : JStr) (ts : List JVal)
    (acc : Nat × WordState)
    (h : ∀ (st' : WordState) (tv : JVal), tv ∈ ts →
      addWordVal sKey tv st' = (false, st')) :
    ts.foldl
      (fun acc2 t =>
        let r := addWordVal sKey t acc2.2
        (if r.1 then acc2.1 + 1 else acc2.1, r.2))
      acc = acc := by
  induction ts generalizing acc with
  | nil => rfl
  | cons t rest ih =>
    rw [List.foldl_cons]
    have hstep :
        (let r := addWordVal sKey t acc.2
         ((if r.1 then acc.1 + 1 else acc.1, r.2) : Nat × WordState)) =
          acc := by
      rw [h acc.2 t (List.mem_cons_self t rest)]
      simp
    rw [hstep]
    exact ih _ (fun st' tv htv => h st' tv (List.mem_cons_of_mem t htv))

/-- C9: a top-level parse failure makes `importDatabase` return `0` with
the store untouched (and, the function being total, no exception reaches
the caller); and an individually malformed entry — one all of whose
targets are rejected by `addWord`, e.g. of a wrong type — is skipped:
importing the remaining entries gives exactly the result of the
document without it. -/
theorem c9_import_containment :
    (∀ st : WordState, importDatabase (Except.error ()) st = (0, st)) ∧
    (∀ (st : WordState) (es1 es2 : List (JStr × JVal)) (sKey : JStr)
        (v : JVal),
      (∀ (st' : WordState) (tv : JVal),
        tv ∈ (match v with | JVal.arr xs => xs | v => [v]) →
        addWordVal sKey tv st' = (false, st')) →
      importDatabase (Except.ok (JVal.obj (es1 ++ (sKey, v) :: es2))) st =
        importDatabase (Except.ok (JVal.obj (es1 ++ es2))) st) := by
  constructor
  · intro st
    rfl
  · intro st es1 es2 sKey v h
    simp only [importDatabase, jsEntries]
    rw [List.foldl_append, List.foldl_append, List.foldl_cons]
    dsimp only
    rw [foldl_addWordVal_id sKey _ _ h]

/-- Witness for C9: a failed parse on the empty store, and a concrete
document in which the malformed entry `("bad", 3)` is skipped. -/
theorem c9_witness :
    importDatabase (Except.error ()) emptyState = (0, emptyState) ∧
    importDatabase
      (Except.ok (JVal.obj
        [(jstr "katze", JVal.str (jstr "cat")),
         (jstr "bad", JVal.num 3),
         (jstr "hund", JVal.str (jstr "dog"))])) emptyState =
    importDatabase
      (Except.ok (JVal.obj
        [(jstr "katze", JVal.str (jstr "cat")),
         (jstr "hund", JVal.str (jstr "dog"))])) emptyState := by
  refine ⟨c9_import_containment.1 emptyState, ?_⟩
  have h := c9_import_containment.2 emptyState
    [(jstr "katze", JVal.str (jstr "cat"))]
    [(jstr "hund", JVal.str (jstr "dog"))]
    (jstr "bad") (JVal.num 3) ?_
  · simpa using h
  · intro st' tv htv
    simp only [List.mem_singleton] at htv
    subst htv
    rfl

/-- C7: `detectExerciseType` returns `selection` whenever at least two
deduplicated text-bearing answer-option candidates exist (even with an
input present); `typing` exactly when the option count is below 2 and an
input exists; then `game`, `test`, `vocabulary` strictly in that order;
and `none` exactly when all five checks fail. -/
theorem c7_classifier_priority (p : DomPage) :
    (2 ≤ (findAnswerOptions p).length →
      detectExerciseType p = some ExerciseType.selection) ∧
    (detectExerciseType p = some ExerciseType.typing ↔
      (findAnswerOptions p).length < 2 ∧ p.answerInputFound = true) ∧
    (detectExerciseType p = some ExerciseType.game ↔
      (findAnswerOptions p).length < 2 ∧ p.answerInputFound = false ∧
      p.gameContainerFound = true) ∧
    (detectExerciseType p = some ExerciseType.test ↔
      (findAnswerOptions p).length < 2 ∧ p.answerInputFound = false ∧
      p.gameContainerFound = false ∧ p.testContainerFound = true) ∧
    (detectExerciseType p = some ExerciseType.vocabulary ↔
      (findAnswerOptions p).length < 2 ∧ p.answerInputFound = false ∧
      p.gameContainerFound = false ∧ p.testContainerFound = false ∧
      extractWordPairs p ≠ []) ∧
    (detectExerciseType p = none ↔
      (findAnswerOptions p).length < 2 ∧ p.answerInputFound = false ∧
      p.gameContainerFound = false ∧ p.testContainerFound = false ∧
      extractWordPairs p = []) := by
  unfold detectExerciseType
  by_cases h1 : 2 ≤ (findAnswerOptions p).length
  · rw [if_pos h1]
    have hnl : ¬(findAnswerOptions p).length < 2 := not_lt.mpr h1
    simp_all
  · rw [if_neg h1]
    have hlt : (findAnswerOptions p).length < 2 := not_le.mp h1
    by_cases h2 : p.answerInputFound = true
    · rw [if_pos h2]
      simp_all
    · rw [if_neg h2]
      have h2f : p.answerInputFound = false := by simpa using h2
      by_cases h3 : p.gameContainerFound = true
      · rw [if_pos h3]
        simp_all
      · rw [if_neg h3]
        have h3f : p.gameContainerFound = false := by simpa using h3
        by_cases h4 : p.testContainerFound = true
        · rw [if_pos h4]
          simp_all
        · rw [if_neg h4]
          have h4f : p.testContainerFound = false := by simpa using h4
          by_cases h5 : (extractWordPairs p).length > 0
          · rw [if_pos h5]
            have h5ne : extractWordPairs p ≠ [] := by
              simpa [List.length_pos] using h5
            simp_all
          · rw [if_neg h5]
            have h5e : extractWordPairs p = [] := by
              simpa [List.length_pos] using h5
            simp_all

/-- Witness for C7: a page with two answer options and a present input is
classified `selection`. -/
theorem c7_witness :
    detectExerciseType
      { optionMatches :=
          [[{ elemId := 1, tag := jstr "DIV", childCount := 0,
              rawText := jstr "cat", rectWidth := 1, rectHeight := 1,
              rectTop := 0, fontSizeParsed := some 16,
              className := jstr "answer" },
            { elemId := 2, tag := jstr "DIV", childCount := 0,
              rawText := jstr "dog", rectWidth := 1, rectHeight := 1,
              rectTop := 0, fontSizeParsed := some 16,
              className := jstr "answer" }]],
        answerInputFound := true,
        gameContainerFound := false,
        testContainerFound := false,
        wordPairItems := [] } = some ExerciseType.selection :=
  (c7_classifier_priority _).1 (by decide)

/-- Worker lemma for C8: when no remaining qualifying element strictly
beats the running best score, the loop keeps the running candidate. -/
theorem scanBest_no_improver (h : Rat) (l : List Element) :
    ∀ (best : Option JStr) (bs : Rat),
      (∀ e ∈ l, qualifies e = true → scoreEl h e ≤ bs) →
      scanBest h l best bs = best := by
  induction l with
  | nil => intro best bs _; rfl
  | cons e rest ih =>
    intro best bs hle
    by_cases hq : qualifies e = true
    · have hse : scoreEl h e ≤ bs := hle e (List.mem_cons_self e rest) hq
      simp only [scanBest, hq, if_true]
      rw [if_neg (by exact not_lt.mpr hse)]
      exact ih best bs (fun x hx hqx =>
        hle x (List.mem_cons_of_mem e hx) hqx)
    · simp only [scanBest, hq, Bool.false_eq_true, if_false]
      exact ih best bs (fun x hx hqx =>
        hle x (List.mem_cons_of_mem e hx) hqx)

/-- Worker lemma for C8: running the loop over a prefix whose qualifying
scores all stay strictly below `el`'s, then `el`, then a suffix that never
strictly beats `el`, selects `el`'s text. -/
theorem scanBest_first_max (h : Rat) (el : Element) (post : List Element)
    (hq : qualifies el = true)
    (hpost : ∀ e ∈ post, qualifies e = true → scoreEl h e ≤ scoreEl h el) :
    ∀ (pre : List Element) (best : Option JStr) (bs : Rat),
      bs < scoreEl h el →
      (∀ e ∈ pre, qualifies e = true → scoreEl h e < scoreEl h el) →
      scanBest h (pre ++ el :: post) best bs = some (getTextEl el) := by
  intro pre
  induction pre with
  | nil =>
    intro best bs hbs _
    simp only [List.nil_append, scanBest, hq, if_true]
    rw [if_pos hbs]
    exact scanBest_no_improver h post _ _ hpost
  | cons e pre2 ih =>
    intro best bs hbs hpre
    rw [List.cons_append]
    have hpre2 : ∀ x ∈ pre2, qualifies x = true →
        scoreEl h x < scoreEl h el :=
      fun x hx hqx => hpre x (List.mem_cons_of_mem e hx) hqx
    by_cases hqe : qualifies e = true
    · simp only [scanBest, hqe, if_true]
      by_cases hlt : bs < scoreEl h e
      · rw [if_pos hlt]
        exact ih _ _ (hpre e (List.mem_cons_self e pre2) hqe) hpre2
      · rw [if_neg hlt]
        exact ih _ _ hbs hpre2
    · simp only [scanBest, hqe, Bool.false_eq_true, if_false]
      exact ih _ _ hbs hpre2

/-- C8: the global scoring fallback is deterministic and first-seen-wins:
for a tree snapshot listing elements in the fixed traversal order
(`querySelectorAll('*')` document order), if a qualifying element `el` has
positive score, every earlier qualifying element scores strictly below it,
and no later qualifying element scores above it (equal scores allowed),
the scan returns `el`'s text.  In particular, of two equal-scored maximal
candidates the earlier one is selected, and, the function being pure, any
rerun on the same snapshot returns the same text. -/
theorem c8_scoring_first_max (h : Rat) (pre post : List Element)
    (el : Element)
    (hq : qualifies el = true) (hpos : 0 < scoreEl h el)
    (hpre : ∀ e ∈ pre, qualifies e = true → scoreEl h e < scoreEl h el)
    (hpost : ∀ e ∈ post, qualifies e = true →
      scoreEl h e ≤ scoreEl h el) :
    findQuestionByScoring h (pre ++ el :: post) = some (getTextEl el) :=
  scanBest_first_max h el post hq hpost pre none 0 hpos hpre

/-- Witness for C8: two qualifying elements with identical scores; the
earlier one is selected. -/
theorem c8_witness :
    findQuestionByScoring 600
      [{ elemId := 1, tag := jstr "DIV", childCount := 0,
         rawText := jstr "katze", rectWidth := 1, rectHeight := 1,
         rectTop := -1, fontSizeParsed := some 16, className := jstr "" },
       { elemId := 2, tag := jstr "DIV", childCount := 0,
         rawText := jstr "hund", rectWidth := 1, rectHeight := 1,
         rectTop := -1, fontSizeParsed := some 16, className := jstr "" }] =
      some (jstr "katze") :=
  c8_scoring_first_max 600 []
    [{ elemId := 2, tag := jstr "DIV", childCount := 0,
       rawText := jstr "hund", rectWidth := 1, rectHeight := 1,
       rectTop := -1, fontSizeParsed := some 16, className := jstr "" }]
    { elemId := 1, tag := jstr "DIV", childCount := 0,
      rawText := jstr "katze", rectWidth := 1, rectHeight := 1,
      rectTop := -1, fontSizeParsed := some 16, className := jstr "" }
    (by decide) (by decide)
    (by intro e he hqe; cases he)
    (by
      intro e he hqe
      simp only [List.mem_singleton] at he
      subst he
      decide)

/-- Concrete tracker page for C1: the correct-feedback node is present but
its text is just `"!"`, so every extraction method comes back empty. -/
def c1page : Page :=
  { currentQuestion := some (jstr "katze"),
    answerInputValue := none,
    highlightedCorrectText := none,
    activeText := none,
    correctFeedbackText := some (jstr "!"),
    incorrectFeedbackText := none,
    revealedText := none,
    correctNotSelectedText := none,
    flaggedOptionText := none }

/-- Counterexample to C1 as stated: with the tracker awaiting a result for
`"katze"` and a correct-feedback signal present whose extraction is empty,
the tracker does NOT remain in `AwaitingResult` — `isWaitingForResult` is
cleared even though nothing was extracted or committed. -/
theorem c1_counterexample :
    findCorrectAnswer c1page = none ∧
    (checkForFeedbackAndLearn c1page
      { lastQuestion := some (jstr "katze"), isWaitingForResult := true }
      emptyState).1.isWaitingForResult = false ∧
    (checkForFeedbackAndLearn c1page
      { lastQuestion := some (jstr "katze"), isWaitingForResult := true }
      emptyState).2 = emptyState := by
  decide

/-- C1 (amended): while `AwaitingResult(q)` with the scorer still seeing
`q`, a feedback signal always clears the waiting flag (transitioning out
of `AwaitingResult`, keeping `lastQuestion = q`) whether or not an answer
is extracted; `WordStore.add(q, answer)` is committed exactly when the
extracted answer is non-empty.  The handlers are total functions, so no
exception is possible. -/
theorem c1_feedback_clears_waiting (page : Page) (st : TrackerState)
    (db : WordState) (q : JStr)
    (hq : st.lastQuestion = some q) (hqne : q ≠ [])
    (hw : st.isWaitingForResult = true)
    (hcq : page.currentQuestion = some q) :
    (page.correctFeedbackText.isSome = true →
      (checkForFeedbackAndLearn page st db).1 =
        { lastQuestion := some q, isWaitingForResult := false } ∧
      (checkForFeedbackAndLearn page st db).2 =
        (match findCorrectAnswer page with
         | some a => if !a.isEmpty then (addWord q a db).2 else db
         | none => db)) ∧
    (page.correctFeedbackText = none →
      page.incorrectFeedbackText.isSome = true →
      (checkForFeedbackAndLearn page st db).1 =
        { lastQuestion := some q, isWaitingForResult := false } ∧
      (checkForFeedbackAndLearn page st db).2 =
        (match findRevealedAnswer page with
         | some a => if !a.isEmpty then (addWord q a db).2 else db
         | none => db)) := by
  obtain ⟨lq, w⟩ := st
  simp only at hq hw
  subst hq
  subst hw
  have hqe : q.isEmpty = false := by
    cases q with
    | nil => exact absurd rfl hqne
    | cons c rest => rfl
  unfold checkForFeedbackAndLearn
  rw [hcq]
  simp only [bne_self_eq_false, Bool.and_false, Bool.false_eq_true,
    if_false, hqe]
  constructor
  · intro hc
    simp only [hc, Bool.and_self, if_true, Bool.true_and, if_pos rfl]
    unfold learnFromCorrectAnswer
    simp only [hqe, Bool.false_eq_true, if_false]
    cases hfc : findCorrectAnswer page with
    | none =>
      simp only [Bool.and_false, Bool.false_eq_true, if_false]
      exact ⟨by trivial, by trivial⟩
    | some a =>
      by_cases ha : a.isEmpty = true
      · simp only [ha, Bool.not_true, Bool.false_eq_true, if_false,
          Bool.and_false]
        exact ⟨by trivial, by trivial⟩
      · have ha2 : (!a.isEmpty) = true := by simpa using ha
        simp only [ha2, if_true, Bool.and_false, Bool.false_eq_true,
          if_false]
        exact ⟨by trivial, by trivial⟩
  · intro hcn hinc
    have hcf : page.correctFeedbackText.isSome = false := by
      rw [hcn]
      rfl
    simp only [hcf, Bool.false_and, Bool.false_eq_true, if_false, hinc,
      Bool.and_self, if_true]
    unfold learnFromIncorrectAnswer
    simp only [hqe, Bool.false_eq_true, if_false]
    cases hfr : findRevealedAnswer page with
    | none => exact ⟨by trivial, by trivial⟩
    | some a =>
      by_cases ha : a.isEmpty = true
      · simp only [ha, Bool.not_true, Bool.false_eq_true, if_false]
        exact ⟨by trivial, by trivial⟩
      · have ha2 : (!a.isEmpty) = true := by simpa using ha
        simp only [ha2, if_true]
        exact ⟨by trivial, by trivial⟩

/-- Witness for C1 (amended) at a concrete page whose input field holds
`"cat"` while correct feedback is shown for question `"Katze"`. -/
theorem c1_witness :
    (checkForFeedbackAndLearn
      { currentQuestion := some (jstr "Katze"),
        answerInputValue := some (jstr "cat"),
        highlightedCorrectText := none,
        activeText := none,
        correctFeedbackText := some (jstr "Correct!"),
        incorrectFeedbackText := none,
        revealedText := none,
        correctNotSelectedText := none,
        flaggedOptionText := none }
      { lastQuestion := some (jstr "Katze"), isWaitingForResult := true }
      emptyState).1 =
      { lastQuestion := some (jstr "Katze"),
        isWaitingForResult := false } ∧
    (checkForFeedbackAndLearn
      { currentQuestion := some (jstr "Katze"),
        answerInputValue := some (jstr "cat"),
        highlightedCorrectText := none,
        activeText := none,
        correctFeedbackText := some (jstr "Correct!"),
        incorrectFeedbackText := none,
        revealedText := none,
        correctNotSelectedText := none,
        flaggedOptionText := none }
      { lastQuestion := some (jstr "Katze"), isWaitingForResult := true }
      emptyState).2 =
      (addWord (jstr "Katze") (jstr "cat") emptyState).2 := by
  have h := (c1_feedback_clears_waiting
    { currentQuestion := some (jstr "Katze"),
      answerInputValue := some (jstr "cat"),
      highlightedCorrectText := none,
      activeText := none,
      correctFeedbackText := some (jstr "Correct!"),
      incorrectFeedbackText := none,
      revealedText := none,
      correctNotSelectedText := none,
      flaggedOptionText := none }
    { lastQuestion := some (jstr "Katze"), isWaitingForResult := true }
    emptyState (jstr "Katze") rfl (by decide) rfl rfl).1 rfl
  refine ⟨h.1, ?_⟩
  rw [h.2]
  decide

theorem validAddCheck_ne (a b : JStr) (hv : validAddCheck a b = true) :
    normalizeWord a ≠ normalizeWord b := by
  unfold validAddCheck validNormPair at hv
  rw [Bool.and_eq_true] at hv
  have h2 := hv.2
  rw [Bool.and_eq_true, Bool.and_eq_true, Bool.and_eq_true,
    Bool.and_eq_true, Bool.and_eq_true] at h2
  have hne := h2.1.1.1.1.2
  intro he
  rw [he] at hne
  simp at hne

/-- Counterexample to C5 as stated: after `add("cat","chat")`, the call
`add("dog","cat")` succeeds, but `lookup("cat")` hits the primary mapping
first and returns `["chat"]`, which does not contain `"dog"`. -/
theorem c5_counterexample :
    (addWord (jstr "dog") (jstr "cat")
      (addWord (jstr "cat") (jstr "chat") emptyState).2).1 = true ∧
    findTranslation (jstr "cat")
      (addWord (jstr "dog") (jstr "cat")
        (addWord (jstr "cat") (jstr "chat") emptyState).2).2 =
      some [jstr "chat"] ∧
    jstr "dog" ∉ [jstr "chat"] := by
  decide

/-- C5 (amended): after a successful `add(a,b)`, `lookup(a)` always
returns a list containing `normalize b`; and provided `normalize b` was
not already a source key of the primary mapping before the call (true in
particular on an empty store), `lookup(b)` returns a list containing
`normalize a`. -/
theorem c5_lookup_after_add (a b : JStr) (st : WordState)
    (h : (addWord a b st).1 = true)
    (hfresh : mapHas st.wordDatabase (normalizeWord b) = false) :
    (∃ l, findTranslation a (addWord a b st).2 = some l ∧
      normalizeWord b ∈ l) ∧
    (∃ l, findTranslation b (addWord a b st).2 = some l ∧
      normalizeWord a ∈ l) := by
  obtain ⟨hv, _⟩ := (addWord_true_iff a b st).mp h
  have hst := addWord_true_state a b st h
  have hne := validAddCheck_ne a b hv
  constructor
  · refine ⟨curList st (normalizeWord a) ++ [normalizeWord b], ?_, ?_⟩
    · unfold findTranslation
      rw [hst]
      have hget := addApplied_get_self (normalizeWord a)
        (normalizeWord b) st
      rw [if_pos (mapHas_of_get hget), hget]
    · exact List.mem_append_right _ (List.mem_singleton_self _)
  · have hget2 : mapGet? (addApplied (normalizeWord a) (normalizeWord b)
        st).wordDatabase (normalizeWord b) = none := by
      rw [addApplied_get_other _ _ _ _ (Ne.symm hne)]
      exact mapGet?_of_not_has hfresh
    have hrev := addApplied_rev_self (normalizeWord a)
      (normalizeWord b) st
    refine ⟨(if (revCurList st (normalizeWord b)).contains
          (normalizeWord a) = true
        then revCurList st (normalizeWord b)
        else revCurList st (normalizeWord b) ++ [normalizeWord a]),
      ?_, ?_⟩
    · unfold findTranslation
      rw [hst]
      rw [if_neg (by rw [mapHas_eq_isSome, hget2]; simp),
        if_pos (mapHas_of_get hrev), hrev]
    · by_cases hc : (revCurList st (normalizeWord b)).contains
          (normalizeWord a) = true
      · rw [if_pos hc]
        exact (contains_eq_true_iff_mem _ _).mp hc
      · rw [if_neg hc]
        exact List.mem_append_right _ (List.mem_singleton_self _)

/-- Witness for C5 (amended): the pair `("Katze", "cat")` added to the
empty store. -/
theorem c5_witness :
    (∃ l, findTranslation (jstr "Katze")
        (addWord (jstr "Katze") (jstr "cat") emptyState).2 = some l ∧
      normalizeWord (jstr "cat") ∈ l) ∧
    (∃ l, findTranslation (jstr "cat")
        (addWord (jstr "Katze") (jstr "cat") emptyState).2 = some l ∧
      normalizeWord (jstr "Katze") ∈ l) :=
  c5_lookup_after_add (jstr "Katze") (jstr "cat") emptyState (by decide)
    (by decide)

/-! ## Reverse-index invariant (C3) -/

/-- The reverse index inverts the primary mapping: `s` is listed for
target `t` exactly when `t` occurs in the translation list of `s`. -/
def RevInv (st : WordState) : Prop :=
  ∀ t s, s ∈ revCurList st t ↔ t ∈ curList st s

theorem Inv_empty : RevInv emptyState := by
  intro t s
  simp [revCurList, curList, emptyState, mapGet?]

theorem Inv_addWord (a b : JStr) (st : WordState) (hInv : RevInv st) :
    RevInv (addWord a b st).2 := by
  cases hres : (addWord a b st).1 with
  | false =>
    rw [addWord_false_state a b st hres]
    exact hInv
  | true =>
    rw [addWord_true_state a b st hres]
    intro y x
    by_cases hyt : y = normalizeWord b
    · subst hyt
      have hRl : revCurList
          (addApplied (normalizeWord a) (normalizeWord b) st)
          (normalizeWord b) =
          (if (revCurList st (normalizeWord b)).contains
              (normalizeWord a) = true
           then revCurList st (normalizeWord b)
           else revCurList st (normalizeWord b) ++ [normalizeWord a]) := by
        unfold revCurList
        rw [addApplied_rev_self]
        rfl
      by_cases hxs : x = normalizeWord a
      · subst hxs
        rw [hRl]
        have hCs : curList
            (addApplied (normalizeWord a) (normalizeWord b) st)
            (normalizeWord a) =
            curList st (normalizeWord a) ++ [normalizeWord b] := by
          unfold curList
          rw [addApplied_get_self]
          rfl
        rw [hCs]
        apply iff_of_true
        · by_cases hc : (revCurList st (normalizeWord b)).contains
              (normalizeWord a) = true
          · rw [if_pos hc]
            exact (contains_eq_true_iff_mem _ _).mp hc
          · rw [if_neg hc]
            exact List.mem_append_right _ (List.mem_singleton_self _)
        · exact List.mem_append_right _ (List.mem_singleton_self _)
      · rw [hRl]
        have hCx : curList
            (addApplied (normalizeWord a) (normalizeWord b) st) x =
            curList st x := by
          unfold curList
          rw [addApplied_get_other _ _ _ _ hxs]
        rw [hCx]
        have base := hInv (normalizeWord b) x
        by_cases hc : (revCurList st (normalizeWord b)).contains
            (normalizeWord a) = true
        · rw [if_pos hc]
          exact base
        · rw [if_neg hc]
          constructor
          · intro hxm
            rcases List.mem_append.mp hxm with h1 | h1
            · exact base.mp h1
            · rw [List.mem_singleton] at h1
              exact absurd h1 hxs
          · intro hxm
            exact List.mem_append_left _ (base.mpr hxm)
    · have hRy : revCurList
          (addApplied (normalizeWord a) (normalizeWord b) st) y =
          revCurList st y := by
        unfold revCurList
        rw [addApplied_rev_other _ _ _ _ hyt]
      rw [hRy]
      by_cases hxs : x = normalizeWord a
      · subst hxs
        have hCs : curList
            (addApplied (normalizeWord a) (normalizeWord b) st)
            (normalizeWord a) =
            curList st (normalizeWord a) ++ [normalizeWord b] := by
          unfold curList
          rw [addApplied_get_self]
          rfl
        rw [hCs]
        have base := hInv y (normalizeWord a)
        constructor
        · intro hsm
          exact List.mem_append_left _ (base.mp hsm)
        · intro hym
          rcases List.mem_append.mp hym with h1 | h1
          · exact base.mpr h1
          · rw [List.mem_singleton] at h1
            exact absurd h1 hyt
      · have hCx : curList
            (addApplied (normalizeWord a) (normalizeWord b) st) x =
            curList st x := by
          unfold curList
          rw [addApplied_get_other _ _ _ _ hxs]
        rw [hCx]
        exact hInv y x

theorem Inv_addWords_go (ps : List (JStr × JStr)) :
    ∀ acc : Nat × WordState, RevInv acc.2 →
      RevInv ((ps.foldl
        (fun acc p =>
          let r := addWord p.1 p.2 acc.2
          (if r.1 then acc.1 + 1 else acc.1, r.2))
        acc).2) := by
  induction ps with
  | nil => intro acc h; exact h
  | cons p rest ih =>
    intro acc h
    rw [List.foldl_cons]
    exact ih _ (Inv_addWord p.1 p.2 acc.2 h)

theorem Inv_addWords (ps : List (JStr × JStr)) (st : WordState)
    (h : RevInv st) : RevInv (addWords ps st).2 :=
  Inv_addWords_go ps (0, st) h

theorem Inv_addWordVal (sKey : JStr) (v : JVal) (st : WordState)
    (h : RevInv st) : RevInv (addWordVal sKey v st).2 := by
  cases v with
  | str t => exact Inv_addWord sKey t st h
  | null => exact h
  | bool b => exact h
  | num n => exact h
  | arr xs => exact h
  | obj fs => exact h

theorem Inv_import_targets (sKey : JStr) (ts : List JVal) :
    ∀ acc : Nat × WordState, RevInv acc.2 →
      RevInv ((ts.foldl
        (fun acc2 t =>
          let r := addWordVal sKey t acc2.2
          (if r.1 then acc2.1 + 1 else acc2.1, r.2))
        acc).2) := by
  induction ts with
  | nil => intro acc h; exact h
  | cons t rest ih =>
    intro acc h
    rw [List.foldl_cons]
    exact ih _ (Inv_addWordVal sKey t acc.2 h)

theorem Inv_import_entries (entries : List (JStr × JVal)) :
    ∀ acc : Nat × WordState, RevInv acc.2 →
      RevInv ((entries.foldl
        (fun acc e =>
          (match e.2 with | JVal.arr xs => xs | v => [v]).foldl
            (fun acc2 t =>
              let r := addWordVal e.1 t acc2.2
              (if r.1 then acc2.1 + 1 else acc2.1, r.2))
            acc)
        acc).2) := by
  induction entries with
  | nil => intro acc h; exact h
  | cons e rest ih =>
    intro acc h
    rw [List.foldl_cons]
    exact ih _ (Inv_import_targets e.1 _ acc h)

theorem Inv_import (j : Except Unit JVal) (st : WordState) (h : RevInv st) :
    RevInv (importDatabase j st).2 := by
  cases j with
  | error e => exact h
  | ok data =>
    unfold importDatabase
    cases hje : jsEntries data with
    | none => simp only [hje]; exact h
    | some entries =>
      simp only [hje]
      exact Inv_import_entries entries (0, st) h

/-- States reachable from the empty store through the four mutating
operations of the spec's store lifecycle. -/
inductive Reachable : WordState → Prop
  | empty : Reachable emptyState
  | add (a b : JStr) {st : WordState} :
      Reachable st → Reachable (addWord a b st).2
  | addMany (ps : List (JStr × JStr)) {st : WordState} :
      Reachable st → Reachable (addWords ps st).2
  | clear {st : WordState} : Reachable st → Reachable (clearDatabase st)
  | importAll (j : Except Unit JVal) {st : WordState} :
      Reachable st → Reachable (importDatabase j st).2

/-- C3: starting from the empty store, after any sequence of `addWord`,
`addWords`, `clearDatabase` and `importDatabase` operations, the reverse
index is exactly the inversion of the primary mapping: a target `t` lists
source `s` if and only if `t` occurs in the primary list of `s`. -/
theorem c3_reverse_inversion (st : WordState) (h : Reachable st) :
    ∀ t s, s ∈ revCurList st t ↔ t ∈ curList st s := by
  induction h with
  | empty => exact Inv_empty
  | add a b _ ih => exact Inv_addWord a b _ ih
  | addMany ps _ ih => exact Inv_addWords ps _ ih
  | clear _ _ => exact Inv_empty
  | importAll j _ ih => exact Inv_import j _ ih

/-- Witness for C3 at the store reached by one successful add. -/
theorem c3_witness :
    (jstr "katze" ∈ revCurList
        (addWord (jstr "Katze") (jstr "cat") emptyState).2
        (jstr "cat")) ↔
      (jstr "cat" ∈ curList
        (addWord (jstr "Katze") (jstr "cat") emptyState).2
        (jstr "katze")) :=
  c3_reverse_inversion _
    (Reachable.add (jstr "Katze") (jstr "cat") Reachable.empty)
    (jstr "cat") (jstr "katze")

/-! ## Round-trip of export/import (C2) -/

/-- Well-formedness of one stored entry: the key and every target are
normalization fixpoints, the target list is non-empty and duplicate-free,
and every pair passed the validation chain. -/
def entryOK (sKey : JStr) (ts : List JStr) : Prop :=
  normalizeWord sKey = sKey ∧ ts ≠ [] ∧ ts.Nodup ∧
  ∀ t ∈ ts, normalizeWord t = t ∧ validNormPair sKey t = true

/-- Well-formedness of the primary mapping: distinct keys, every entry
`entryOK`. -/
def StoreOK (db : List (JStr × List JStr)) : Prop :=
  (db.map Prod.fst).Nodup ∧ ∀ p ∈ db, entryOK p.1 p.2

theorem mapHas_false_iff {α : Type} (m : List (JStr × α)) (k : JStr) :
    mapHas m k = false ↔ k ∉ m.map Prod.fst := by
  constructor
  · intro h hk
    rcases List.mem_map.mp hk with ⟨p, hp, hpk⟩
    rw [mapHas, List.any_eq_false] at h
    exact absurd (by simp [hpk]) (h p hp)
  · intro h
    rw [mapHas, List.any_eq_false]
    intro p hp
    simp only [Bool.not_eq_true, beq_eq_false_iff_ne]
    intro he
    exact h (by rw [← he]; exact List.mem_map_of_mem Prod.fst hp)

theorem get_of_mem_nodup {α : Type} (db : List (JStr × α))
    (hnod : (db.map Prod.fst).Nodup) {p : JStr × α} (hp : p ∈ db) :
    mapGet? db p.1 = some p.2 := by
  induction db with
  | nil => cases hp
  | cons q rest ih =>
    rw [List.map_cons, List.nodup_cons] at hnod
    rcases List.mem_cons.mp hp with hpq | hpr
    · subst hpq
      unfold mapGet?
      rw [find?_cons_pair, if_pos (by simp)]
      rfl
    · have hq1 : (q.1 == p.1) = false := by
        rw [beq_eq_false_iff_ne]
        intro he
        exact hnod.1 (by rw [he]; exact List.mem_map_of_mem Prod.fst hpr)
      unfold mapGet?
      rw [find?_cons_pair, if_neg (by simp [hq1])]
      exact ih hnod.2 hpr

theorem keys_map_update {α : Type} (db : List (JStr × α)) (k : JStr)
    (v : α) :
    (db.map (fun p => if p.1 == k then (k, v) else p)).map Prod.fst =
      db.map Prod.fst := by
  induction db with
  | nil => rfl
  | cons p rest ih =>
    simp only [List.map_cons, ih]
    by_cases hp : (p.1 == k) = true
    · rw [if_pos hp]
      have hpk : p.1 = k := by simpa using hp
      rw [hpk]
    · rw [if_neg hp]

theorem validAddCheck_components (a b : JStr)
    (hv : validAddCheck a b = true) :
    validNormPair (normalizeWord a) (normalizeWord b) = true := by
  unfold validAddCheck at hv
  rw [Bool.and_eq_true] at hv
  exact hv.2

theorem validNormPair_raw (sKey t : JStr)
    (hv : validNormPair sKey t = true) :
    (!(sKey.isEmpty || t.isEmpty)) = true := by
  unfold validNormPair at hv
  rw [Bool.and_eq_true, Bool.and_eq_true, Bool.and_eq_true,
    Bool.and_eq_true, Bool.and_eq_true] at hv
  exact hv.1.1.1.1.1

theorem validAddCheck_of_norm (sKey t : JStr)
    (hs : normalizeWord sKey = sKey) (ht : normalizeWord t = t)
    (hv : validNormPair sKey t = true) :
    validAddCheck sKey t = true := by
  unfold validAddCheck
  rw [hs, ht, Bool.and_eq_true]
  exact ⟨validNormPair_raw sKey t hv, hv⟩

theorem StoreOK_addWord (a b : JStr) (st : WordState)
    (h : StoreOK st.wordDatabase) :
    StoreOK (addWord a b st).2.wordDatabase := by
  cases hres : (addWord a b st).1 with
  | false =>
    rw [addWord_false_state a b st hres]
    exact h
  | true =>
    obtain ⟨hv, hm⟩ := (addWord_true_iff a b st).mp hres
    rw [addWord_true_state a b st hres, addApplied_wordDb]
    have hvn := validAddCheck_components a b hv
    by_cases hh : mapHas st.wordDatabase (normalizeWord a) = true
    · rw [if_pos hh]
      unfold mapSet
      rw [if_pos hh]
      constructor
      · rw [keys_map_update]
        exact h.1
      · intro q hq
        rcases List.mem_map.mp hq with ⟨p, hp, hpq⟩
        by_cases hps : (p.1 == normalizeWord a) = true
        · rw [if_pos hps] at hpq
          have hpk : p.1 = normalizeWord a := by simpa using hps
          have hget := get_of_mem_nodup st.wordDatabase h.1 hp
          rw [hpk] at hget
          have hl : curList st (normalizeWord a) = p.2 := by
            unfold curList
            rw [hget]
            rfl
          have hold := h.2 p hp
          subst hpq
          dsimp only
          rw [hl] at hm ⊢
          refine ⟨normalizeWord_idem a, by simp, ?_, ?_⟩
          · exact (List.perm_append_singleton _ _).nodup_iff.mpr
              (List.nodup_cons.mpr ⟨hm, hold.2.2.1⟩)
          · intro t2 ht2
            rcases List.mem_append.mp ht2 with h1 | h1
            · have hx := hold.2.2.2 t2 h1
              rw [hpk] at hx
              exact hx
            · rw [List.mem_singleton] at h1
              subst h1
              exact ⟨normalizeWord_idem b, hvn⟩
        · rw [if_neg hps] at hpq
          subst hpq
          exact h.2 p hp
    · rw [if_neg hh]
      have hhf : mapHas st.wordDatabase (normalizeWord a) = false := by
        simpa using hh
      have hcur : curList st (normalizeWord a) = [] := by
        unfold curList
        rw [mapGet?_of_not_has hhf]
        rfl
      rw [hcur, mapSet_absent _ _ _ hhf, List.nil_append,
        mapSet_append_last _ _ _ _ hhf]
      constructor
      · rw [List.map_append]
        simp only [List.map_cons, List.map_nil]
        rw [List.nodup_append]
        refine ⟨h.1, List.nodup_singleton _, ?_⟩
        intro x hx hx2
        rw [List.mem_singleton] at hx2
        subst hx2
        exact (mapHas_false_iff st.wordDatabase (normalizeWord a)).mp
          hhf hx
      · intro q hq
        rcases List.mem_append.mp hq with h1 | h1
        · exact h.2 q h1
        · rw [List.mem_singleton] at h1
          subst h1
          exact ⟨normalizeWord_idem a, by simp, List.nodup_singleton _,
            fun t2 ht2 => by
              rw [List.mem_singleton] at ht2
              subst ht2
              exact ⟨normalizeWord_idem b, hvn⟩⟩

theorem StoreOK_addWords_go (ps : List (JStr × JStr)) :
    ∀ acc : Nat × WordState, StoreOK acc.2.wordDatabase →
      StoreOK ((ps.foldl
        (fun acc p =>
          let r := addWord p.1 p.2 acc.2
          (if r.1 then acc.1 + 1 else acc.1, r.2))
        acc).2.wordDatabase) := by
  induction ps with
  | nil => intro acc h; exact h
  | cons p rest ih =>
    intro acc h
    rw [List.foldl_cons]
    exact ih _ (StoreOK_addWord p.1 p.2 acc.2 h)

/-- Stores populated only through `addWord` / `addWords` from the empty
store. -/
inductive BuiltAM : WordState → Prop
  | empty : BuiltAM emptyState
  | add (a b : JStr) {st : WordState} :
      BuiltAM st → BuiltAM (addWord a b st).2
  | addMany (ps : List (JStr × JStr)) {st : WordState} :
      BuiltAM st → BuiltAM (addWords ps st).2

theorem StoreOK_empty : StoreOK emptyState.wordDatabase :=
  ⟨List.nodup_nil, fun p hp => absurd hp (List.not_mem_nil p)⟩

theorem StoreOK_of_BuiltAM (st : WordState) (h : BuiltAM st) :
    StoreOK st.wordDatabase := by
  induction h with
  | empty => exact StoreOK_empty
  | add a b _ ih => exact StoreOK_addWord a b _ ih
  | addMany ps _ ih => exact StoreOK_addWords_go ps (0, _) ih

theorem replay_targets (sKey : JStr) (ts2 : List JStr) :
    ∀ (ts1 : List JStr) (acc : Nat × WordState)
      (done : List (JStr × List JStr)),
      acc.2.wordDatabase = done ++ [(sKey, ts1)] →
      mapHas done sKey = false →
      normalizeWord sKey = sKey →
      (∀ t ∈ ts2, normalizeWord t = t ∧ validNormPair sKey t = true) →
      (ts1 ++ ts2).Nodup →
      (((ts2.map JVal.str).foldl
        (fun acc2 t =>
          let r := addWordVal sKey t acc2.2
          (if r.1 then acc2.1 + 1 else acc2.1, r.2))
        acc).2).wordDatabase = done ++ [(sKey, ts1 ++ ts2)] := by
  induction ts2 with
  | nil =>
    intro ts1 acc done hwd _ _ _ _
    simpa using hwd
  | cons t rest ih =>
    intro ts1 acc done hwd hdone hnorm hts hnodup
    rw [List.map_cons, List.foldl_cons]
    have htfacts := hts t (List.mem_cons_self t rest)
    have hvac : validAddCheck sKey t = true :=
      validAddCheck_of_norm sKey t hnorm htfacts.1 htfacts.2
    have hcur : curList acc.2 sKey = ts1 := by
      unfold curList
      rw [hwd, mapGet?_append_last done sKey ts1 hdone]
      rfl
    have htnotm : normalizeWord t ∉ curList acc.2 (normalizeWord sKey) := by
      rw [hnorm, hcur, htfacts.1]
      intro hin
      exact (List.nodup_append.mp hnodup).2.2 hin
        (List.mem_cons_self t rest)
    have hres : (addWord sKey t acc.2).1 = true :=
      (addWord_true_iff sKey t acc.2).mpr ⟨hvac, htnotm⟩
    have hword : (addWord sKey t acc.2).2.wordDatabase =
        done ++ [(sKey, ts1 ++ [t])] := by
      rw [addWord_true_state sKey t acc.2 hres, addApplied_wordDb, hnorm,
        htfacts.1]
      have hhas : mapHas acc.2.wordDatabase sKey = true := by
        rw [hwd]
        exact mapHas_of_get (mapGet?_append_last done sKey ts1 hdone)
      rw [if_pos hhas, hcur, hwd,
        mapSet_append_last done sKey ts1 _ hdone]
    have hnodup2 : ((ts1 ++ [t]) ++ rest).Nodup := by
      rw [List.append_assoc]
      simpa using hnodup
    have hassoc : ts1 ++ t :: rest = (ts1 ++ [t]) ++ rest := by
      rw [List.append_assoc]
      rfl
    rw [hassoc]
    exact ih (ts1 ++ [t]) _ done hword hdone hnorm
      (fun t2 ht2 => hts t2 (List.mem_cons_of_mem t ht2)) hnodup2

theorem replay_entry (sKey : JStr) (ts : List JStr)
    (acc : Nat × WordState) (done : List (JStr × List JStr))
    (hwd : acc.2.wordDatabase = done)
    (hdone : mapHas done sKey = false)
    (hok : entryOK sKey ts) :
    (((ts.map JVal.str).foldl
      (fun acc2 t =>
        let r := addWordVal sKey t acc2.2
        (if r.1 then acc2.1 + 1 else acc2.1, r.2))
      acc).2).wordDatabase = done ++ [(sKey, ts)] := by
  obtain ⟨hnorm, hne, hnodup, hts⟩ := hok
  cases ts with
  | nil => exact absurd rfl hne
  | cons t0 rest =>
    rw [List.map_cons, List.foldl_cons]
    have htfacts := hts t0 (List.mem_cons_self t0 rest)
    have hvac := validAddCheck_of_norm sKey t0 hnorm htfacts.1 htfacts.2
    have hcur : curList acc.2 sKey = [] := by
      unfold curList
      rw [hwd, mapGet?_of_not_has hdone]
      rfl
    have hres : (addWord sKey t0 acc.2).1 = true :=
      (addWord_true_iff sKey t0 acc.2).mpr ⟨hvac, by rw [hnorm, hcur]; simp⟩
    have hword : (addWord sKey t0 acc.2).2.wordDatabase =
        done ++ [(sKey, [t0])] := by
      rw [addWord_true_state sKey t0 acc.2 hres, addApplied_wordDb,
        hnorm, htfacts.1]
      have hhas : mapHas acc.2.wordDatabase sKey = false := by
        rw [hwd]
        exact hdone
      rw [if_neg (by simp [hhas]), hcur, List.nil_append, hwd,
        mapSet_absent done sKey [] hdone,
        mapSet_append_last done sKey [] _ hdone]
    exact replay_targets sKey rest [t0] _ done hword hdone hnorm
      (fun t2 ht2 => hts t2 (List.mem_cons_of_mem t0 ht2))
      (by simpa using hnodup)

theorem replay_entries (db : List (JStr × List JStr)) :
    ∀ (acc : Nat × WordState) (done : List (JStr × List JStr)),
      acc.2.wordDatabase = done →
      (db.map Prod.fst).Nodup →
      (∀ p ∈ db, entryOK p.1 p.2) →
      (∀ p ∈ db, mapHas done p.1 = false) →
      (((db.map (fun p => (p.1, JVal.arr (p.2.map JVal.str)))).foldl
        (fun acc e =>
          (match e.2 with | JVal.arr xs => xs | v => [v]).foldl
            (fun acc2 t =>
              let r := addWordVal e.1 t acc2.2
              (if r.1 then acc2.1 + 1 else acc2.1, r.2))
            acc)
        acc).2).wordDatabase = done ++ db := by
  induction db with
  | nil =>
    intro acc done hwd _ _ _
    simpa using hwd
  | cons p rest ih =>
    intro acc done hwd hnod hok hdis
    rw [List.map_cons, List.foldl_cons]
    have hstep := replay_entry p.1 p.2 acc done hwd
      (hdis p (List.mem_cons_self p rest))
      (hok p (List.mem_cons_self p rest))
    rw [List.map_cons, List.nodup_cons] at hnod
    have hassoc : done ++ p :: rest = (done ++ [(p.1, p.2)]) ++ rest := by
      rw [List.append_assoc]
      rfl
    rw [hassoc]
    exact ih _ (done ++ [(p.1, p.2)]) hstep hnod.2
      (fun q hq => hok q (List.mem_cons_of_mem p hq))
      (fun q hq => by
        rw [mapHas_append_one]
        have h1 := hdis q (List.mem_cons_of_mem p hq)
        have h2 : (p.1 == q.1) = false := by
          rw [beq_eq_false_iff_ne]
          intro he
          exact hnod.1 (by rw [he]; exact List.mem_map_of_mem Prod.fst hq)
        rw [h1, h2]
        rfl)

/-- C2: for every store populated only through `addWord` / `addWords`
(all entries passed validation), importing the exported document into a
fresh empty store reproduces the primary mapping exactly — the same keys
and, for each key, exactly the same target list.  (`JSON.stringify`
followed by `JSON.parse` is the identity on such documents; the
composition is taken at the JSON-value level.) -/
theorem c2_roundtrip (st : WordState) (h : BuiltAM st) :
    (importDatabase (Except.ok (exportDatabase st))
      emptyState).2.wordDatabase = st.wordDatabase := by
  obtain ⟨hnod, hok⟩ := StoreOK_of_BuiltAM st h
  have hrep := replay_entries st.wordDatabase (0, emptyState) [] rfl hnod
    hok (fun p _ => rfl)
  simpa [importDatabase, exportDatabase, jsEntries] using hrep

/-- Witness for C2 at the store built by one successful add. -/
theorem c2_witness :
    (importDatabase (Except.ok (exportDatabase
        (addWord (jstr "Katze") (jstr "cat") emptyState).2))
      emptyState).2.wordDatabase =
    (addWord (jstr "Katze") (jstr "cat") emptyState).2.wordDatabase :=
  c2_roundtrip _ (BuiltAM.add (jstr "Katze") (jstr "cat") BuiltAM.empty)
